import Mathlib

/-!
Verification of the suspension-telemetry analytics engine (dashboard/app):
a shallow embedding of the stroke data model (telemetry/psst.py), the range
and stroke filters (api/session/routes.py), the travel and velocity
histogram engines (telemetry/travel.py, telemetry/velocity.py), the
velocity band engine and the spectrum analyzer post-processing
(telemetry/fft.py).  Python floats are modelled by rationals, Python ints
by Int, fallible code by Except.
-/

namespace SST

/-- Embeds the `StrokeStat` dataclass from telemetry/psst.py. -/
structure StrokeStat where
  SumTravel : ℚ
  MaxTravel : ℚ
  P95Travel : ℚ
  SumVelocity : ℚ
  MaxVelocity : ℚ
  P95VelocityCompression : ℚ
  P95VelocityRebound : ℚ
  Bottomouts : Int
  Count : Int
deriving DecidableEq, Repr

/-- Embeds the `Stroke` dataclass from telemetry/psst.py. -/
structure Stroke where
  Start : Int
  End : Int
  Stat : StrokeStat
  DigitizedTravel : List Int
  DigitizedVelocity : List Int
  FineDigitizedVelocity : List Int
deriving DecidableEq, Repr

/-- Embeds the `Strokes` dataclass from telemetry/psst.py. -/
structure Strokes where
  Compressions : List Stroke
  Rebounds : List Stroke
deriving DecidableEq, Repr

/-- Python slice `l[a:b]`, used at call sites where `0 <= a` and `a <= b`
are already guaranteed by guards, so no negative-index wrapping occurs. -/
def pySlice (l : List ℚ) (a b : Int) : List ℚ :=
  (l.drop a.toNat).take (b - a).toNat

/-- The stroke-retaining loop of `_filter_strokes` (api/session/routes.py,
lines 43-57): a stroke is kept iff `Start > start and End < end`. -/
def keepContained (start stop : Int) : List Stroke → List Stroke
  | [] => []
  | s :: rest =>
    if s.Start > start ∧ s.End < stop then s :: keepContained start stop rest
    else keepContained start stop rest

/-- Embeds `_filter_strokes` (api/session/routes.py).  A `None` endpoint
returns the input unchanged; otherwise both classes are filtered by strict
containment. -/
def filterStrokes (strokes : Strokes) (start? stop? : Option Int) : Strokes :=
  match start?, stop? with
  | some a, some b =>
      ⟨keepContained a b strokes.Compressions, keepContained a b strokes.Rebounds⟩
  | _, _ => strokes

/-- Embeds `_validate_range` (api/session/routes.py): valid iff both
endpoints are present, `start >= 0`, `end < count` and `start < end`.
Absent or unparseable endpoints arrive as `none` (the `_extract_range`
try/except turns any parse failure into `None`). -/
def validateRange (start? stop? : Option Int) (count : Int) : Bool :=
  match start?, stop? with
  | some a, some b => decide (0 ≤ a ∧ b < count ∧ a < b)
  | _, _ => false

/-- Embeds the per-wheel selection logic of the `filter` route
(api/session/routes.py, lines 155-171): when the range validates, strokes
are filtered and travel is sliced and the selection start index is kept;
otherwise the full strokes, the full travel series and index 0 are used. -/
def selectData (strokes : Strokes) (travel : List ℚ) (start? stop? : Option Int) :
    Strokes × List ℚ × Int :=
  if validateRange start? stop? travel.length then
    match start?, stop? with
    | some a, some b => (filterStrokes strokes (some a) (some b), pySlice travel a b, a)
    | _, _ => (strokes, travel, 0)
  else (strokes, travel, 0)

/-- Insertion of one element into an ascending list (helper for the sort
implicit in `np.percentile` and `np.mean`-style statistics). -/
def insertAsc (x : ℚ) : List ℚ → List ℚ
  | [] => [x]
  | y :: ys => if x ≤ y then x :: y :: ys else y :: insertAsc x ys

/-- Ascending insertion sort, modelling the sort performed inside
`np.percentile`. -/
def sortAsc : List ℚ → List ℚ
  | [] => []
  | x :: xs => insertAsc x (sortAsc xs)

/-- The arithmetic mean (`np.mean`); 0 on the empty list (that case is
guarded away at every call site). -/
def listMean (l : List ℚ) : ℚ := l.sum / l.length

/-- Maximum of a list (`np.max`); 0 on the empty list (guarded away at
call sites). -/
def listMax : List ℚ → ℚ
  | [] => 0
  | x :: xs => xs.foldl max x

/-- Minimum of a list (`np.min`); 0 on the empty list (guarded away at
call sites). -/
def listMin : List ℚ → ℚ
  | [] => 0
  | x :: xs => xs.foldl min x

/-- Embeds `np.percentile(a, 95)` with the default linear interpolation:
sort ascending, take rank `h = 0.95 * (n - 1)` and interpolate between the
neighbouring order statistics. -/
def percentile95 (l : List ℚ) : ℚ :=
  let s := sortAsc l
  let n := s.length
  if n = 0 then 0
  else
    let h : ℚ := (19 / 20) * ((n : ℚ) - 1)
    let lo : Nat := (Int.floor h).toNat
    let lov := s.getD lo 0
    let hiv := s.getD (lo + 1) lov
    lov + (h - (lo : ℚ)) * (hiv - lov)

/-- Embeds `to_percentage` (telemetry/travel.py): 0 when the maximum is 0,
else `value / max * 100`. -/
def toPercentage (value maxValue : ℚ) : ℚ :=
  if maxValue = 0 then 0 else value / maxValue * 100

/-- Result record of `_selection_travel_stats` (telemetry/travel.py):
average, max and 95th percentile in mm, the bottom-out count, and the
three percent-of-max figures, in the order returned by the source. -/
structure TravelStats where
  avgMm : ℚ
  maxMm : ℚ
  p95Mm : ℚ
  bottomouts : Int
  avgPerc : ℚ
  maxPerc : ℚ
  p95Perc : ℚ
deriving DecidableEq, Repr

/-- The sample-collection loop of `_selection_travel_stats`
(telemetry/travel.py, lines 75-86): each stroke window is shifted into the
selection-relative index space and clamped to the travel slice. -/
def selectionTravelValues (strokes : Strokes) (travel : List ℚ) (startAbs : Int) : List ℚ :=
  (strokes.Compressions ++ strokes.Rebounds).foldl
    (fun acc s =>
      let relStart := s.Start - startAbs
      let relStop := s.End - startAbs
      let effStart := max 0 relStart
      let effStop := min (travel.length : Int) (relStop + 1)
      if effStart < effStop then acc ++ pySlice travel effStart effStop else acc)
    []

/-- Embeds `_selection_travel_stats` (telemetry/travel.py, lines 66-103).
Note that in the source `bottomouts_count` is initialised to 0 and never
updated before being returned, so the embedding carries the literal 0. -/
def selectionTravelStats (strokes : Strokes) (travel : List ℚ)
    (linkageMaxTravel : ℚ) (startAbs : Int) : TravelStats :=
  let values := selectionTravelValues strokes travel startAbs
  if values = [] then ⟨0, 0, 0, 0, 0, 0, 0⟩
  else
    let avg := listMean values
    let mx := listMax values
    let p95 := percentile95 values
    ⟨avg, mx, p95, 0,
      toPercentage avg linkageMaxTravel,
      toPercentage mx linkageMaxTravel,
      toPercentage p95 linkageMaxTravel⟩

/-- Population variance of a sample list; `scipy.stats.norm.fit` returns
the maximum-likelihood standard deviation, whose comparisons with 0 and
with 1e-9 are expressed exactly through this variance. -/
def listVariance (l : List ℚ) : ℚ :=
  let mu := listMean l
  (l.map (fun x => (x - mu) ^ 2)).sum / l.length

/-- Embeds `np.linspace(a, b, num)` with endpoint: the i-th point is
`a + (b - a) * i / (num - 1)`. -/
def linspace (a b : ℚ) (num : Nat) : List ℚ :=
  (List.range num).map (fun i => a + (b - a) * i / ((num : ℚ) - 1))

/-- The sample-collection loop of `_normal_distribution_data`
(telemetry/velocity.py, lines 165-172): concatenate the velocity samples
of every stroke whose window lies inside the velocity series.  A `None`
strokes argument behaves exactly like an empty `Strokes` value (no
samples collected), so strokes is embedded non-optionally. -/
def strokeVelocityPoints (strokes : Strokes) (velocity : List ℚ) : List ℚ :=
  if velocity = [] then []
  else
    (strokes.Compressions ++ strokes.Rebounds).foldl
      (fun acc s =>
        if s.Start < 0 ∨ (velocity.length : Int) ≤ s.End ∨ s.End < s.Start then acc
        else acc ++ pySlice velocity s.Start (s.End + 1))
      []

/-- Embeds `_normal_distribution_data` (telemetry/velocity.py, lines
163-195).  The probability-density values of `scipy.stats.norm.pdf` are an
external-library computation over transcendental functions; they are
supplied through the parameter `pdfFn` (mean, variance, point).  The
comparisons on the fitted standard deviation are expressed through the
variance: `std == 0` iff variance = 0 and `std > 1e-9` iff variance >
1e-18.  When no sample is collected, the source executes
`dict(pdf=[].tolist(), ny=[].tolist())` (line 175); a plain Python list
has no `tolist` method, so that branch raises `AttributeError`, embedded
as an `Except.error`. -/
def normalDistributionData (pdfFn : ℚ → ℚ → ℚ → ℚ) (strokes : Strokes)
    (velocity : List ℚ) (step : ℚ) : Except String (List ℚ × List ℚ) :=
  let pts := strokeVelocityPoints strokes velocity
  if pts = [] then
    .error "AttributeError: list object has no attribute tolist"
  else
    let mu := listMean pts
    let var := listVariance pts
    let minVel := listMin pts
    let maxVel := listMax pts
    if |minVel - maxVel| < 1 / 1000000000 then
      .ok (if var = 0 then [step * 100] else [0], [minVel])
    else if minVel < maxVel then
      let ny := linspace minVel maxVel 100
      let pdf :=
        if 1 / 10 ^ 18 < var then ny.map (fun x => pdfFn mu var x * step * 100)
        else ny.map (fun _ => 0)
      .ok (pdf, ny)
    else
      .ok (if var = 0 then [step * 100] else [0], [minVel])

/-- Increment one cell of a 1-dimensional histogram. -/
def bump (row : List ℚ) (j : Nat) : List ℚ := row.set j (row.getD j 0 + 1)

/-- Increment one cell of a 2-dimensional histogram. -/
def bump2 (h : List (List ℚ)) (i j : Nat) : List (List ℚ) :=
  h.set i (bump (h.getD i []) j)

/-- The index loop of `_travel_histogram_data` (telemetry/travel.py, lines
38-40): each digitized-travel index inside `[0, histLen)` increments its
bucket; out-of-range indices are dropped. -/
def addTravelIdxs (histLen : Nat) (hist : List ℚ) (idxs : List Int) : List ℚ :=
  idxs.foldl
    (fun h d => if 0 ≤ d ∧ d < (histLen : Int) then bump h d.toNat else h) hist

/-- The accumulation loop of `_travel_histogram_data` (telemetry/travel.py,
lines 34-40): histogram counts plus the accumulated `Stat.Count` total.
The `Stat`/`DigitizedTravel` presence probes always succeed on the psst
dataclass model, where both fields are mandatory. -/
def travelHistCounts (strokes : Strokes) (histLen : Nat) : List ℚ × Int :=
  (strokes.Compressions ++ strokes.Rebounds).foldl
    (fun acc s => (addTravelIdxs histLen acc.1 s.DigitizedTravel, acc.2 + s.Stat.Count))
    (List.replicate histLen 0, 0)

/-- Result record of `_travel_histogram_data` (telemetry/travel.py). -/
structure TravelHistData where
  travelMidsMm : List ℚ
  travelMidsPerc : List ℚ
  timePerc : List ℚ
  binWidthsPerc : List ℚ
deriving DecidableEq, Repr

/-- Embeds `_travel_histogram_data` (telemetry/travel.py, lines 25-64):
accumulate bucket counts over all strokes, normalise to percent of the
accumulated `Stat.Count` when positive, and derive bin midpoints and
gap-adjusted bar widths when the theoretical maximum travel is positive. -/
def travelHistogramData (strokes : Strokes) (binsMm : List ℚ)
    (theoreticalMaxTravelMm : ℚ) : TravelHistData :=
  let histLen := if 1 < binsMm.length then binsMm.length - 1 else 0
  let counts := travelHistCounts strokes histLen
  let hist :=
    if 0 < histLen then
      (if 0 < counts.2 then counts.1.map (fun v => v / (counts.2 : ℚ) * 100) else counts.1)
    else List.replicate histLen 0
  if 0 < histLen ∧ 0 < theoreticalMaxTravelMm then
    let midsMm := (binsMm.dropLast.zip binsMm.tail).map (fun p => (p.1 + p.2) / 2)
    let midsPerc := midsMm.map (fun m => m / theoreticalMaxTravelMm * 100)
    let edgesPerc := binsMm.map (fun e => e / theoreticalMaxTravelMm * 100)
    let fullWidths := (edgesPerc.dropLast.zip edgesPerc.tail).map (fun p => p.2 - p.1)
    let widths := fullWidths.map (fun w => max (w - 3 / 4) (w * (1 / 10)))
    ⟨midsMm, midsPerc, hist, widths⟩
  else ⟨[], [], hist, []⟩

/-- The number of coarse travel buckets used by `_velocity_histogram_data`
(telemetry/velocity.py, lines 204-207): 10, degrading to 1 when
`TravelBins` has at most one edge. -/
def numTravelBins (tbins : List ℚ) : Nat := if tbins.length ≤ 1 then 1 else 10

/-- The travel-axis divider of `_velocity_histogram_data`
(telemetry/velocity.py, lines 205-209): `max(1, (len(tbins) - 1) // 10)`
when there is more than one edge, else 1. -/
def tbinDivider (tbins : List ℚ) : Int :=
  if tbins.length ≤ 1 then 1 else max 1 (((tbins.length : Int) - 1) / 10)

/-- The coarse travel-bucket index of one digitized-travel value
(telemetry/velocity.py, line 232): floor-divide by the divider (guarded on
the divider being positive, as in the source) and clamp into
`[0, numTravelBins - 1]`. -/
def tbinIndex (tbins : List ℚ) (d : Int) : Nat :=
  let q := if 0 < tbinDivider tbins then d.fdiv (tbinDivider tbins) else 0
  (min (max 0 q) ((numTravelBins tbins : Int) - 1)).toNat

/-- Per-sample update of the two velocity histograms
(telemetry/velocity.py, lines 228-246): always bump the coarse histogram
at the clamped velocity-bin index, and bump the fine histogram only when
the fine bin centre lies strictly inside the low-speed window. -/
def vhistSample (tbins vbinsFine : List ℚ) (hst stepLow : ℚ)
    (shapeV shapeVF : Nat) (s : Stroke)
    (acc : List (List ℚ) × List (List ℚ)) (i : Nat) :
    List (List ℚ) × List (List ℚ) :=
  if numTravelBins tbins = 0 then acc
  else
    let ti := tbinIndex tbins (s.DigitizedTravel.getD i 0)
    let h1 :=
      if 0 < shapeV then
        let vj := (min (max 0 (s.DigitizedVelocity.getD i 0)) ((shapeV : Int) - 1)).toNat
        bump2 acc.1 ti vj
      else acc.1
    let h2 :=
      if 0 < shapeVF then
        let fj := (min (max 0 (s.FineDigitizedVelocity.getD i 0)) ((shapeVF : Int) - 1)).toNat
        if vbinsFine ≠ [] ∧ fj + 1 < vbinsFine.length then
          let centre := (vbinsFine.getD fj 0 + vbinsFine.getD (fj + 1) 0) / 2
          if -(hst + stepLow / 2) < centre ∧ centre < hst + stepLow / 2 then
            bump2 acc.2 ti fj
          else acc.2
        else acc.2
      else acc.2
    (h1, h2)

/-- The iteration length for one stroke inside `_velocity_histogram_data`
(telemetry/velocity.py, line 227): the minimum of `Stat.Count` and the
three digitized-array lengths. -/
def strokeIterLen (s : Stroke) : Nat :=
  min s.Stat.Count.toNat
    (min s.DigitizedTravel.length
      (min s.DigitizedVelocity.length s.FineDigitizedVelocity.length))

/-- Per-stroke update of `_velocity_histogram_data` (telemetry/velocity.py,
lines 223-246): strokes with non-positive `Stat.Count` are skipped
entirely; a qualifying stroke adds its count to the total and, when all
three digitized arrays are non-empty (Python truthiness), processes
`strokeIterLen` samples. -/
def vhistStroke (tbins vbinsFine : List ℚ) (hst stepLow : ℚ)
    (shapeV shapeVF : Nat)
    (acc : List (List ℚ) × List (List ℚ) × Int) (s : Stroke) :
    List (List ℚ) × List (List ℚ) × Int :=
  if 0 < s.Stat.Count then
    let total := acc.2.2 + s.Stat.Count
    if s.DigitizedTravel ≠ [] ∧ s.DigitizedVelocity ≠ [] ∧ s.FineDigitizedVelocity ≠ [] then
      let (h1, h2) :=
        (List.range (strokeIterLen s)).foldl
          (vhistSample tbins vbinsFine hst stepLow shapeV shapeVF s)
          (acc.1, acc.2.1)
      (h1, h2, total)
    else (acc.1, acc.2.1, total)
  else acc

/-- Result record of `_velocity_histogram_data` (telemetry/velocity.py):
the two normalised 2-dimensional histograms (coarse and fine rows keyed by
coarse travel bucket), the accumulated sample total and the two axis
bounds.  The string-keyed packaging of the rows into a Bokeh column-data
dict is presentation glue and is not modelled. -/
structure VHistData where
  hist : List (List ℚ)
  histLowspeed : List (List ℚ)
  totalCount : Int
  mx : ℚ
  mxLowspeed : ℚ
deriving DecidableEq, Repr

/-- Column sums of a 2-dimensional histogram (`np.sum(hist, axis=0)`). -/
def colSums (shape : Nat) (h : List (List ℚ)) : List ℚ :=
  h.foldl (fun acc r => (acc.zip r).map (fun p => p.1 + p.2)) (List.replicate shape 0)

/-- Embeds `_velocity_histogram_data` (telemetry/velocity.py, lines
198-262): accumulate the coarse and fine histograms over all strokes,
normalise both to percent of the total count when positive, and compute
the axis bounds from the largest stacked column. -/
def velocityHistogramData (strokes : Strokes) (hst : ℚ)
    (tbins vbins vbinsFine : List ℚ) : VHistData :=
  let stepLow := if 1 < vbinsFine.length then vbinsFine.getD 1 0 - vbinsFine.getD 0 0 else 1
  let shapeV := if 1 < vbins.length then vbins.length - 1 else 1
  let shapeVF := if 1 < vbinsFine.length then vbinsFine.length - 1 else 1
  let init1 := List.replicate (numTravelBins tbins) (List.replicate shapeV 0)
  let init2 := List.replicate (numTravelBins tbins) (List.replicate shapeVF 0)
  let res :=
    (strokes.Compressions ++ strokes.Rebounds).foldl
      (vhistStroke tbins vbinsFine hst stepLow shapeV shapeVF) (init1, init2, 0)
  let total := res.2.2
  let h1 := if 0 < total then res.1.map (fun r => r.map (fun v => v / (total : ℚ) * 100))
            else res.1
  let h2 := if 0 < total then res.2.1.map (fun r => r.map (fun v => v / (total : ℚ) * 100))
            else res.2.1
  let largest := listMax (colSums shapeV h1)
  let largestLow := listMax (colSums shapeVF h2)
  ⟨h1, h2, total,
    if 0 < largest then 3 / 2 * largest else 1,
    if 0 < largestLow then 3 / 2 * largestLow else 1⟩

/-- Sum of every cell of a 2-dimensional histogram. -/
def grandSum (h : List (List ℚ)) : ℚ := (h.map (fun r => r.sum)).sum

/-- Concatenation of the images of a list-valued function (spec-side
helper for stating sample-set characterisations). -/
def listFlat (f : α → List β) : List α → List β
  | [] => []
  | x :: xs => f x ++ listFlat f xs

/-- The in-bounds guard shared by `_velocity_band_stats`
(telemetry/velocity.py, line 516) for one stroke against a velocity series
of length `vlen`: `Start <= End`, `Start >= 0` and `End < vlen`. -/
def strokeInBounds (vlen : Nat) (s : Stroke) : Prop :=
  s.Start ≤ s.End ∧ 0 ≤ s.Start ∧ s.End < (vlen : Int)

instance (vlen : Nat) (s : Stroke) : Decidable (strokeInBounds vlen s) := by
  unfold strokeInBounds; infer_instance

/-- The four band counters of `_velocity_band_stats` together with the
in-stroke sample total. -/
structure BandCounts where
  lsc : Nat
  hsc : Nat
  lsr : Nat
  hsr : Nat
  total : Nat
deriving DecidableEq, Repr

/-- Per-stroke update of `_velocity_band_stats` (telemetry/velocity.py,
lines 513-534): an in-bounds, non-empty stroke adds its sample count to
the total and, depending on the sign of `Stat.MaxVelocity`, counts
low-speed samples one-sidedly (`v < hst` for compression strokes,
`-hst < v` for rebound strokes), the remainder being high speed. -/
def bandAccum (vel : List ℚ) (hst : ℚ) (acc : BandCounts) (s : Stroke) : BandCounts :=
  if strokeInBounds vel.length s then
    let sv := pySlice vel s.Start (s.End + 1)
    if sv = [] then acc
    else
      let n := sv.length
      if 0 ≤ s.Stat.MaxVelocity then
        let c := sv.countP (fun v => decide (v < hst))
        { acc with lsc := acc.lsc + c, hsc := acc.hsc + (n - c), total := acc.total + n }
      else
        let c := sv.countP (fun v => decide (-hst < v))
        { acc with lsr := acc.lsr + c, hsr := acc.hsr + (n - c), total := acc.total + n }
  else acc

/-- The counting loop of `_velocity_band_stats` over all strokes. -/
def bandCounts (strokes : Strokes) (vel : List ℚ) (hst : ℚ) : BandCounts :=
  (strokes.Compressions ++ strokes.Rebounds).foldl (bandAccum vel hst) ⟨0, 0, 0, 0, 0⟩

/-- Embeds `_velocity_band_stats` (telemetry/velocity.py, lines 500-541),
returning `(hsr, lsr, lsc, hsc)` percentages in the order of the source
return statement; all zero when the velocity series is empty or no sample
falls inside a stroke. -/
def velocityBandStats (strokes : Strokes) (vel : List ℚ) (hst : ℚ) : ℚ × ℚ × ℚ × ℚ :=
  if vel = [] then (0, 0, 0, 0)
  else
    let c := bandCounts strokes vel hst
    if c.total = 0 then (0, 0, 0, 0)
    else
      ((c.hsr : ℚ) / c.total * 100, (c.lsr : ℚ) / c.total * 100,
       (c.lsc : ℚ) / c.total * 100, (c.hsc : ℚ) / c.total * 100)

/-- Modelled from the words of claim C4 for the refutation: identical to
`bandAccum` except that a sample is low speed exactly when its magnitude
is below the threshold, in both stroke classes. -/
def bandAccumAbsClaim (vel : List ℚ) (hst : ℚ) (acc : BandCounts) (s : Stroke) : BandCounts :=
  if strokeInBounds vel.length s then
    let sv := pySlice vel s.Start (s.End + 1)
    if sv = [] then acc
    else
      let n := sv.length
      if 0 ≤ s.Stat.MaxVelocity then
        let c := sv.countP (fun v => decide (|v| < hst))
        { acc with lsc := acc.lsc + c, hsc := acc.hsc + (n - c), total := acc.total + n }
      else
        let c := sv.countP (fun v => decide (|v| < hst))
        { acc with lsr := acc.lsr + c, hsr := acc.hsr + (n - c), total := acc.total + n }
  else acc

/-- Modelled from the words of claim C4 for the refutation: the four band
counters that magnitude-based low-speed classification would yield. -/
def bandCountsAbsClaim (strokes : Strokes) (vel : List ℚ) (hst : ℚ) : BandCounts :=
  (strokes.Compressions ++ strokes.Rebounds).foldl (bandAccumAbsClaim vel hst) ⟨0, 0, 0, 0, 0⟩

/-- The concatenated samples of the in-bounds strokes of a stroke list
that are classified as compression (`Stat.MaxVelocity >= 0`),
declaratively. -/
def compSamplesList (vel : List ℚ) (l : List Stroke) : List ℚ :=
  listFlat (fun s => pySlice vel s.Start (s.End + 1))
    ((l.filter (fun s => decide (strokeInBounds vel.length s))).filter
      (fun s => decide (0 ≤ s.Stat.MaxVelocity)))

/-- The concatenated samples of the in-bounds strokes of a stroke list
that are classified as rebound (`Stat.MaxVelocity < 0`), declaratively. -/
def rebSamplesList (vel : List ℚ) (l : List Stroke) : List ℚ :=
  listFlat (fun s => pySlice vel s.Start (s.End + 1))
    ((l.filter (fun s => decide (strokeInBounds vel.length s))).filter
      (fun s => !decide (0 ≤ s.Stat.MaxVelocity)))

/-- The concatenated in-stroke samples classified as compression, over
both stroke classes of a `Strokes` value. -/
def compressionSamples (strokes : Strokes) (vel : List ℚ) : List ℚ :=
  compSamplesList vel (strokes.Compressions ++ strokes.Rebounds)

/-- The concatenated in-stroke samples classified as rebound, over both
stroke classes of a `Strokes` value. -/
def reboundSamples (strokes : Strokes) (vel : List ℚ) : List ℚ :=
  rebSamplesList vel (strokes.Compressions ++ strokes.Rebounds)

/-- Accumulator of one class loop inside `_velocity_stats`
(telemetry/velocity.py): velocity sum, sample count, running extreme of
`Stat.MaxVelocity` and the collected percentile sample list. -/
structure VelAcc where
  sum : ℚ
  count : Int
  mx : Option ℚ
  pts : List ℚ
deriving DecidableEq, Repr

/-- The in-bounds guard of the percentile-sample collection inside
`_velocity_stats` (telemetry/velocity.py, lines 473-474 and 489-490):
both endpoints inside the series and `Start <= End`. -/
def velPointsGuard (vlen : Nat) (s : Stroke) : Prop :=
  0 ≤ s.Start ∧ s.Start < (vlen : Int) ∧ 0 ≤ s.End ∧ s.End < (vlen : Int) ∧ s.Start ≤ s.End

instance (vlen : Nat) (s : Stroke) : Decidable (velPointsGuard vlen s) := by
  unfold velPointsGuard; infer_instance

/-- The compression loop body of `_velocity_stats` (telemetry/velocity.py,
lines 466-475): accumulate `SumVelocity` and `Count`, keep the largest
`Stat.MaxVelocity`, and collect the strictly positive in-stroke samples
raw. -/
def compAccum (vel : List ℚ) (acc : VelAcc) (s : Stroke) : VelAcc :=
  let mx := match acc.mx with
    | none => some s.Stat.MaxVelocity
    | some m => if m < s.Stat.MaxVelocity then some s.Stat.MaxVelocity else some m
  let pts :=
    if vel ≠ [] ∧ velPointsGuard vel.length s then
      acc.pts ++ (pySlice vel s.Start (s.End + 1)).filter (fun v => decide (0 < v))
    else acc.pts
  ⟨acc.sum + s.Stat.SumVelocity, acc.count + s.Stat.Count, mx, pts⟩

/-- The rebound loop body of `_velocity_stats` (telemetry/velocity.py,
lines 483-491): accumulate `SumVelocity` and `Count`, keep the most
negative `Stat.MaxVelocity`, and collect the magnitudes of the strictly
negative in-stroke samples. -/
def rebAccum (vel : List ℚ) (acc : VelAcc) (s : Stroke) : VelAcc :=
  let mx := match acc.mx with
    | none => some s.Stat.MaxVelocity
    | some m => if s.Stat.MaxVelocity < m then some s.Stat.MaxVelocity else some m
  let pts :=
    if vel ≠ [] ∧ velPointsGuard vel.length s then
      acc.pts ++ ((pySlice vel s.Start (s.End + 1)).filter (fun v => decide (v < 0))).map (fun v => |v|)
    else acc.pts
  ⟨acc.sum + s.Stat.SumVelocity, acc.count + s.Stat.Count, mx, pts⟩

/-- Result record of `_velocity_stats` (telemetry/velocity.py): per-class
average, extreme and 95th percentile, `none` standing for Python `None`. -/
structure VelStats where
  avgr : Option ℚ
  maxr : Option ℚ
  avgc : Option ℚ
  maxc : Option ℚ
  p95r : Option ℚ
  p95c : Option ℚ
deriving DecidableEq, Repr

/-- Embeds `_velocity_stats` (telemetry/velocity.py, lines 463-497): the
compression percentile is taken over the collected raw positive samples,
the rebound percentile over the collected magnitudes of negative samples
and then negated. -/
def velocityStats (strokes : Strokes) (vel : List ℚ) : VelStats :=
  let c := strokes.Compressions.foldl (compAccum vel) ⟨0, 0, none, []⟩
  let r := strokes.Rebounds.foldl (rebAccum vel) ⟨0, 0, none, []⟩
  { avgr := if 0 < r.count then some (r.sum / r.count) else none
    maxr := r.mx
    avgc := if 0 < c.count then some (c.sum / c.count) else none
    maxc := c.mx
    p95r := if r.pts = [] then none else some (-(percentile95 r.pts))
    p95c := if c.pts = [] then none else some (percentile95 c.pts) }

/-- Modelled from the words of claim C9 for the refutation: the 95th
percentile over the raw concatenated in-stroke compression samples, with
no positivity filter. -/
def p95CompClaim (strokes : Strokes) (vel : List ℚ) : Option ℚ :=
  let pts := listFlat (fun s => pySlice vel s.Start (s.End + 1)) strokes.Compressions
  if pts = [] then none else some (percentile95 pts)

/-- Modelled from the words of claim C9 for the refutation: the negation
of the 95th percentile over the magnitudes of all concatenated in-stroke
rebound samples, with no negativity filter. -/
def p95RebClaim (strokes : Strokes) (vel : List ℚ) : Option ℚ :=
  let pts := (listFlat (fun s => pySlice vel s.Start (s.End + 1)) strokes.Rebounds).map (fun v => |v|)
  if pts = [] then none else some (-(percentile95 pts))

/-- A Python float as far as the spectrum pipeline observes it: a finite
rational or one of the non-finite values. -/
inductive PyFloat
  | fin (q : ℚ)
  | nan
  | pinf
  | ninf
deriving DecidableEq, Repr

/-- Finiteness of a modelled Python float. -/
def PyFloat.isFinite : PyFloat → Bool
  | .fin _ => true
  | _ => false

/-- The representable maximum of a 32-bit float,
`np.finfo(np.float32).max` = (2 - 2^-23) * 2^127. -/
def float32Max : ℚ := 340282346638528859811704183484516925440

/-- Embeds `np.nan_to_num(x, nan=0.0, posinf=float32max, neginf=0.0)`
applied pointwise (telemetry/fft.py, line 67). -/
def nanToNum : PyFloat → PyFloat
  | .fin q => .fin q
  | .nan => .fin 0
  | .pinf => .fin float32Max
  | .ninf => .fin 0

/-- The minimum transform length of `_fft_data` (telemetry/fft.py, line
23): `ceil(fs / 0.025)` with `fs = 1 / tick`. -/
def fftMinLen (tick : ℚ) : Int := Int.ceil ((1 / tick) / (1 / 40))

/-- The raw one-sided spectrum length produced by `rfft` of length `n`
(and equally by `welch` with `nfft = n`): `n / 2 + 1`; zero on the early
exits of `_fft_data`. -/
def fftRawLen (travel : List ℚ) (tick : ℚ) : Nat :=
  if travel = [] ∨ tick ≤ 0 then 0
  else if fftMinLen tick ≤ 0 then 0
  else (fftMinLen tick).toNat / 2 + 1

/-- Embeds `_fft_data` (telemetry/fft.py, lines 16-74).  The numerical
content of the one-sided raw spectrum is produced by `scipy` (`rfft`
squared magnitudes, or the Welch averaged periodogram); it is an
external-library computation and is supplied through `rawSpec`,
constrained only by its length `fftRawLen` — the single structural fact
both scipy paths guarantee.  The frequency axis is `rfftfreq(n, tick)`,
i.e. `i / (n * tick)`, in both paths (`welch` returns the same grid for
`nfft = n`).  Frequencies are truncated at `10.0 + 1e-9` and the
surviving spectrum entries are passed through `nanToNum`. -/
def fftData (travel : List ℚ) (tick : ℚ) (rawSpec : List PyFloat) :
    List ℚ × List PyFloat :=
  if travel = [] ∨ tick ≤ 0 then ([], [])
  else if fftMinLen tick ≤ 0 then ([], [])
  else
    let nn := (fftMinLen tick).toNat
    let freqs := (List.range (nn / 2 + 1)).map (fun i => (i : ℚ) / ((nn : ℚ) * tick))
    let pairs := (freqs.zip rawSpec).filter (fun p => decide (p.1 ≤ 10 + 1 / 1000000000))
    (pairs.map Prod.fst, pairs.map (fun p => nanToNum p.2))

/-- Modelled from the words of claim C3 for the refutation: the coarse
bucket obtained by floor-dividing the digitized index by
`ceil((len(TravelBins) - 1) / 10)` and then clamping into the coarse
range. -/
def tbinIndexCeilClaim (tbins : List ℚ) (d : Int) : Nat :=
  let divider : Int := ((tbins.length : Int) - 1 + 9) / 10
  let q := if 0 < divider then d.fdiv divider else 0
  (min (max 0 q) ((numTravelBins tbins : Int) - 1)).toNat

/-- The data-model invariant of spec section 3 instantiated for the travel
histogram: a non-negative `Stat.Count` equal to the digitized-array
length, with every digitized index inside the bucket range. -/
def WFTravelStroke (histLen : Nat) (s : Stroke) : Prop :=
  0 ≤ s.Stat.Count ∧ s.DigitizedTravel.length = s.Stat.Count.toNat ∧
    ∀ d ∈ s.DigitizedTravel, 0 ≤ d ∧ d < (histLen : Int)

instance (histLen : Nat) (s : Stroke) : Decidable (WFTravelStroke histLen s) := by
  unfold WFTravelStroke; infer_instance

/-- The data-model invariant of spec section 3 instantiated for the
velocity histograms: a non-negative `Stat.Count` equal to the length of
each of the three digitized arrays. -/
def WFVelStroke (s : Stroke) : Prop :=
  0 ≤ s.Stat.Count ∧ s.DigitizedTravel.length = s.Stat.Count.toNat ∧
    s.DigitizedVelocity.length = s.Stat.Count.toNat ∧
    s.FineDigitizedVelocity.length = s.Stat.Count.toNat

instance (s : Stroke) : Decidable (WFVelStroke s) := by
  unfold WFVelStroke; infer_instance

/-- Shape predicate for a 2-dimensional histogram: `rows` rows, each of
length `cols`. -/
def Shaped2 (h : List (List ℚ)) (rows cols : Nat) : Prop :=
  h.length = rows ∧ ∀ r ∈ h, r.length = cols

/-- The `total_count` accumulated by `_travel_histogram_data`: the sum of
`Stat.Count` over all strokes when the bucket loop runs, 0 when
`TravelBins` yields no bucket (the source guards the whole loop, total
accumulation included, behind `hist_len > 0`). -/
def travelTotalCount (strokes : Strokes) (binsMm : List ℚ) : Int :=
  let histLen := if 1 < binsMm.length then binsMm.length - 1 else 0
  if 0 < histLen then (travelHistCounts strokes histLen).2 else 0

/-- C2: the bottom-out count returned by `_selection_travel_stats` is 0
for every input — the source initialises `bottomouts_count = 0` and never
accumulates `Stat.Bottomouts`, contradicting the specified sum over
included strokes. -/
theorem selectionTravelStats_bottomouts_zero (strokes : Strokes) (travel : List ℚ)
    (linkageMaxTravel : ℚ) (startAbs : Int) :
    (selectionTravelStats strokes travel linkageMaxTravel startAbs).bottomouts = 0 := by
  unfold selectionTravelStats
  by_cases h : selectionTravelValues strokes travel startAbs = [] <;> simp [h]

/-- C1: whenever the collected in-stroke sample set is empty — in
particular for empty strokes with an empty velocity series (Scenario B) —
`_normal_distribution_data` does not return empty curve arrays but raises
`AttributeError`, because line 175 calls `tolist` on a plain Python
list. -/
theorem normalDistributionData_empty_raises (pdfFn : ℚ → ℚ → ℚ → ℚ)
    (strokes : Strokes) (velocity : List ℚ) (step : ℚ)
    (h : strokeVelocityPoints strokes velocity = []) :
    normalDistributionData pdfFn strokes velocity step =
      .error "AttributeError: list object has no attribute tolist" := by
  unfold normalDistributionData
  simp [h]

/-- Witness for C1 at the Scenario B input: empty strokes, empty velocity
series. -/
theorem normalDistributionData_empty_raises_witness :
    strokeVelocityPoints ⟨[], []⟩ [] = [] ∧
    normalDistributionData (fun _ _ _ => 0) ⟨[], []⟩ [] 1 =
      .error "AttributeError: list object has no attribute tolist" :=
  ⟨rfl, normalDistributionData_empty_raises (fun _ _ _ => 0) ⟨[], []⟩ [] 1 rfl⟩

/-- The retaining loop of `_filter_strokes` is a filter by strict
containment. -/
theorem keepContained_eq_filter (a b : Int) (l : List Stroke) :
    keepContained a b l = l.filter (fun s => decide (s.Start > a ∧ s.End < b)) := by
  induction l with
  | nil => rfl
  | cons s rest ih =>
      by_cases h : s.Start > a ∧ s.End < b <;>
        simp [keepContained, h, ih, List.filter_cons]

/-- C6: the Stroke Filter keeps exactly the strokes with `Start > start`
and `End < end`, carried over unchanged, as an order-preserving sublist of
each input class. -/
theorem filterStrokes_strict_containment (strokes : Strokes) (a b : Int) :
    (∀ s, s ∈ (filterStrokes strokes (some a) (some b)).Compressions ↔
      s ∈ strokes.Compressions ∧ s.Start > a ∧ s.End < b) ∧
    (∀ s, s ∈ (filterStrokes strokes (some a) (some b)).Rebounds ↔
      s ∈ strokes.Rebounds ∧ s.Start > a ∧ s.End < b) ∧
    (filterStrokes strokes (some a) (some b)).Compressions.Sublist strokes.Compressions ∧
    (filterStrokes strokes (some a) (some b)).Rebounds.Sublist strokes.Rebounds := by
  refine ⟨?_, ?_, ?_, ?_⟩ <;>
    simp [filterStrokes, keepContained_eq_filter, List.mem_filter, List.filter_sublist]

/-- C5: the range selection is used iff both endpoints are present and
`0 <= start < end < N`; every invalid selection yields exactly the
full-range data (all strokes, full travel series, start index 0), and the
embedding is total, mirroring the exception-free degradation of the
source. -/
theorem rangeSelection_valid_iff_full (start? stop? : Option Int)
    (strokes : Strokes) (travel : List ℚ) :
    (validateRange start? stop? travel.length = true ↔
      ∃ a b, start? = some a ∧ stop? = some b ∧
        0 ≤ a ∧ a < b ∧ b < (travel.length : Int)) ∧
    (validateRange start? stop? travel.length = false →
      selectData strokes travel start? stop? = (strokes, travel, 0)) := by
  constructor
  · cases start? <;> cases stop? <;> simp [validateRange]
    tauto
  · intro h
    unfold selectData
    rw [h]
    simp

/-- Witness for C5 at a concrete invalid selection (`end <= start`). -/
theorem rangeSelection_valid_iff_full_witness :
    validateRange (some 2) (some 1) (([0, 1, 2] : List ℚ).length) = false ∧
    selectData ⟨[], []⟩ [0, 1, 2] (some 2) (some 1) = (⟨[], []⟩, [0, 1, 2], 0) :=
  ⟨by decide,
    (rangeSelection_valid_iff_full (some 2) (some 1) ⟨[], []⟩ [0, 1, 2]).2 (by decide)⟩

/-- C3 counterexample: for a `TravelBins` array with 12 edges the source
divider is `max(1, 11 // 10) = 1` while the claimed divider is
`ceil(11 / 10) = 2`, so index 3 lands in bucket 3 in the code but in
bucket 1 under the claim. -/
theorem tbinIndex_ceil_claim_false :
    tbinIndex ((List.range 12).map (fun i => (i : ℚ))) 3 = 3 ∧
    tbinIndexCeilClaim ((List.range 12).map (fun i => (i : ℚ))) 3 = 1 ∧
    tbinIndex ((List.range 12).map (fun i => (i : ℚ))) 3 ≠
      tbinIndexCeilClaim ((List.range 12).map (fun i => (i : ℚ))) 3 := by
  decide

/-- C3 (amended): for every `TravelBins` array with more than one edge,
each digitized-travel index is mapped to its coarse bucket by
floor-dividing by `max(1, (len(TravelBins) - 1) // 10)` and clamping the
result into `[0, 9]`. -/
theorem tbinIndex_floor_divider (tbins : List ℚ) (d : Int)
    (h : 1 < tbins.length) :
    tbinIndex tbins d =
      (min (max 0 (d.fdiv (max 1 (((tbins.length : Int) - 1) / 10)))) 9).toNat := by
  have hn : ¬ tbins.length ≤ 1 := by omega
  have hd : (0 : Int) < max 1 (((tbins.length : Int) - 1) / 10) := by
    have : (1 : Int) ≤ max 1 (((tbins.length : Int) - 1) / 10) := le_max_left _ _
    omega
  simp only [tbinIndex, tbinDivider, numTravelBins, hn, if_neg hn, if_pos hd]
  norm_num

/-- Witness for C3 (amended) at `TravelBins = [0, 1]` and index 5. -/
theorem tbinIndex_floor_divider_witness :
    1 < ([0, 1] : List ℚ).length ∧
    tbinIndex [0, 1] 5 =
      (min (max 0 ((5 : Int).fdiv
        (max 1 (((([0, 1] : List ℚ).length : Int) - 1) / 10)))) 9).toNat :=
  ⟨by decide, tbinIndex_floor_divider [0, 1] 5 (by decide)⟩

/-- Every modelled `nan_to_num` output is finite. -/
theorem nanToNum_isFinite (x : PyFloat) : (nanToNum x).isFinite = true := by
  cases x <;> rfl

/-- C7: the spectrum analyzer output has frequency and spectrum arrays of
equal length, every returned frequency is at most `10.0 + 1e-9`, and every
returned spectrum value is finite (no NaN or infinity survives
`nan_to_num`).  The hypothesis fixes the raw scipy spectrum to the
one-sided length `n // 2 + 1` that both the `rfft` and the `welch` paths
produce. -/
theorem fftData_props (travel : List ℚ) (tick : ℚ) (rawSpec : List PyFloat)
    (_h : rawSpec.length = fftRawLen travel tick) :
    (fftData travel tick rawSpec).1.length = (fftData travel tick rawSpec).2.length ∧
    (∀ f ∈ (fftData travel tick rawSpec).1, f ≤ 10 + 1 / 1000000000) ∧
    (∀ x ∈ (fftData travel tick rawSpec).2, x.isFinite = true) := by
  unfold fftData
  split
  · simp
  · split
    · simp
    · refine ⟨by simp, ?_, ?_⟩
      · intro f hf
        simp only [List.mem_map] at hf
        obtain ⟨p, hp, rfl⟩ := hf
        have := List.of_mem_filter hp
        simpa using this
      · intro x hx
        simp only [List.mem_map] at hx
        obtain ⟨p, _, rfl⟩ := hx
        exact nanToNum_isFinite p.2

/-- Witness for C7 at `travel = [1]`, `tick = 1` and a raw spectrum of 21
NaN values (length `40 // 2 + 1`). -/
theorem fftData_props_witness :
    (List.replicate 21 PyFloat.nan).length = fftRawLen [1] 1 ∧
    ((fftData [1] 1 (List.replicate 21 PyFloat.nan)).1.length =
        (fftData [1] 1 (List.replicate 21 PyFloat.nan)).2.length ∧
      (∀ f ∈ (fftData [1] 1 (List.replicate 21 PyFloat.nan)).1, f ≤ 10 + 1 / 1000000000) ∧
      (∀ x ∈ (fftData [1] 1 (List.replicate 21 PyFloat.nan)).2, x.isFinite = true)) :=
  have hlen : (List.replicate 21 PyFloat.nan).length = fftRawLen [1] 1 := by
    have h40 : fftMinLen 1 = 40 := by
      unfold fftMinLen
      norm_num
    simp [fftRawLen, h40]
    norm_num
  ⟨hlen, fftData_props [1] 1 (List.replicate 21 PyFloat.nan) hlen⟩

/-- With an empty velocity series no stroke passes the bounds guard. -/
theorem bandAccum_nil_vel (hst : ℚ) (acc : BandCounts) (s : Stroke) :
    bandAccum [] hst acc s = acc := by
  unfold bandAccum
  rw [if_neg]
  rintro ⟨h1, h2, h3⟩
  simp at h3
  omega

/-- With an empty velocity series all band counters stay zero. -/
theorem bandCounts_nil_vel (strokes : Strokes) (hst : ℚ) :
    bandCounts strokes [] hst = ⟨0, 0, 0, 0, 0⟩ := by
  unfold bandCounts
  generalize strokes.Compressions ++ strokes.Rebounds = l
  induction l with
  | nil => rfl
  | cons s rest ih => rw [List.foldl_cons, bandAccum_nil_vel]; exact ih

/-- One `bandAccum` step preserves the invariant that the four counters
sum to the running total. -/
theorem bandAccum_sum (vel : List ℚ) (hst : ℚ) (acc : BandCounts) (s : Stroke)
    (h : acc.lsc + acc.hsc + acc.lsr + acc.hsr = acc.total) :
    (bandAccum vel hst acc s).lsc + (bandAccum vel hst acc s).hsc +
      (bandAccum vel hst acc s).lsr + (bandAccum vel hst acc s).hsr =
      (bandAccum vel hst acc s).total := by
  have hc := List.countP_le_length (fun v => decide (v < hst))
    (l := pySlice vel s.Start (s.End + 1))
  have hc2 := List.countP_le_length (fun v => decide (-hst < v))
    (l := pySlice vel s.Start (s.End + 1))
  by_cases hb : strokeInBounds vel.length s
  · by_cases he : pySlice vel s.Start (s.End + 1) = []
    · simp [bandAccum, hb, he, h]
    · by_cases hs : 0 ≤ s.Stat.MaxVelocity
      · simp only [bandAccum, if_pos hb, if_neg he, if_pos hs]
        omega
      · simp only [bandAccum, if_pos hb, if_neg he, if_neg hs]
        omega
  · simp [bandAccum, hb, h]

/-- The four band counters of `_velocity_band_stats` always sum to the
number of in-stroke samples. -/
theorem bandCounts_sum (strokes : Strokes) (vel : List ℚ) (hst : ℚ) :
    (bandCounts strokes vel hst).lsc + (bandCounts strokes vel hst).hsc +
      (bandCounts strokes vel hst).lsr + (bandCounts strokes vel hst).hsr =
      (bandCounts strokes vel hst).total := by
  unfold bandCounts
  generalize strokes.Compressions ++ strokes.Rebounds = l
  suffices hgen : ∀ (l : List Stroke) (acc : BandCounts),
      acc.lsc + acc.hsc + acc.lsr + acc.hsr = acc.total →
      (l.foldl (bandAccum vel hst) acc).lsc + (l.foldl (bandAccum vel hst) acc).hsc +
        (l.foldl (bandAccum vel hst) acc).lsr + (l.foldl (bandAccum vel hst) acc).hsr =
        (l.foldl (bandAccum vel hst) acc).total by
    exact hgen l ⟨0, 0, 0, 0, 0⟩ rfl
  intro l
  induction l with
  | nil => intro acc h; simpa using h
  | cons s rest ih =>
      intro acc h
      rw [List.foldl_cons]
      exact ih _ (bandAccum_sum vel hst acc s h)

/-- C10: the denominator of the four velocity-band percentages is the
number of in-stroke samples, so whenever at least one sample lies inside a
valid stroke the four percentages sum to exactly 100, even if some
velocity samples belong to no stroke. -/
theorem velocityBandStats_sum_100 (strokes : Strokes) (vel : List ℚ) (hst : ℚ)
    (h : 0 < (bandCounts strokes vel hst).total) :
    (velocityBandStats strokes vel hst).1 + (velocityBandStats strokes vel hst).2.1 +
      (velocityBandStats strokes vel hst).2.2.1 +
      (velocityBandStats strokes vel hst).2.2.2 = 100 := by
  have hvel : ¬ vel = [] := by
    intro he
    rw [he, bandCounts_nil_vel] at h
    simp at h
  unfold velocityBandStats
  rw [if_neg hvel, if_neg (by omega : ¬ (bandCounts strokes vel hst).total = 0)]
  have hsum := bandCounts_sum strokes vel hst
  have ht : ((bandCounts strokes vel hst).total : ℚ) ≠ 0 :=
    Nat.cast_ne_zero.mpr (by omega)
  have hq : ((bandCounts strokes vel hst).lsc : ℚ) + (bandCounts strokes vel hst).hsc +
      (bandCounts strokes vel hst).lsr + (bandCounts strokes vel hst).hsr =
      (bandCounts strokes vel hst).total := by
    exact_mod_cast hsum
  field_simp
  linarith

/-- Witness for C10 at Scenario D: one compression stroke over
`[50, 250, 50, 250]` with threshold 200. -/
theorem velocityBandStats_sum_100_witness :
    0 < (bandCounts ⟨[⟨0, 3, ⟨0, 0, 0, 600, 250, 0, 0, 0, 4⟩, [], [], []⟩], []⟩
        [50, 250, 50, 250] 200).total ∧
    (velocityBandStats ⟨[⟨0, 3, ⟨0, 0, 0, 600, 250, 0, 0, 0, 4⟩, [], [], []⟩], []⟩
        [50, 250, 50, 250] 200).1 +
      (velocityBandStats ⟨[⟨0, 3, ⟨0, 0, 0, 600, 250, 0, 0, 0, 4⟩, [], [], []⟩], []⟩
        [50, 250, 50, 250] 200).2.1 +
      (velocityBandStats ⟨[⟨0, 3, ⟨0, 0, 0, 600, 250, 0, 0, 0, 4⟩, [], [], []⟩], []⟩
        [50, 250, 50, 250] 200).2.2.1 +
      (velocityBandStats ⟨[⟨0, 3, ⟨0, 0, 0, 600, 250, 0, 0, 0, 4⟩, [], [], []⟩], []⟩
        [50, 250, 50, 250] 200).2.2.2 = 100 :=
  ⟨by decide, velocityBandStats_sum_100 _ _ _ (by decide)⟩

/-- Unfolding equation of `compSamplesList` on a cons cell. -/
theorem compSamplesList_cons (vel : List ℚ) (s : Stroke) (rest : List Stroke) :
    compSamplesList vel (s :: rest) =
      if strokeInBounds vel.length s ∧ 0 ≤ s.Stat.MaxVelocity
      then pySlice vel s.Start (s.End + 1) ++ compSamplesList vel rest
      else compSamplesList vel rest := by
  by_cases hb : strokeInBounds vel.length s <;> by_cases hs : 0 ≤ s.Stat.MaxVelocity <;>
    simp [compSamplesList, List.filter_cons, hb, hs, listFlat]

/-- Unfolding equation of `rebSamplesList` on a cons cell. -/
theorem rebSamplesList_cons (vel : List ℚ) (s : Stroke) (rest : List Stroke) :
    rebSamplesList vel (s :: rest) =
      if strokeInBounds vel.length s ∧ ¬ 0 ≤ s.Stat.MaxVelocity
      then pySlice vel s.Start (s.End + 1) ++ rebSamplesList vel rest
      else rebSamplesList vel rest := by
  by_cases hb : strokeInBounds vel.length s <;> by_cases hs : 0 ≤ s.Stat.MaxVelocity <;>
    simp [rebSamplesList, List.filter_cons, hb, hs, listFlat]

/-- The band-counting fold agrees with the declarative per-class sample
sets under one-sided low-speed classification, for any starting
accumulator. -/
theorem bandFold_counts (vel : List ℚ) (hst : ℚ) :
    ∀ (l : List Stroke) (acc : BandCounts),
      (l.foldl (bandAccum vel hst) acc).lsc =
        acc.lsc + (compSamplesList vel l).countP (fun v => decide (v < hst)) ∧
      (l.foldl (bandAccum vel hst) acc).hsc =
        acc.hsc + (compSamplesList vel l).countP (fun v => decide (hst ≤ v)) ∧
      (l.foldl (bandAccum vel hst) acc).lsr =
        acc.lsr + (rebSamplesList vel l).countP (fun v => decide (-hst < v)) ∧
      (l.foldl (bandAccum vel hst) acc).hsr =
        acc.hsr + (rebSamplesList vel l).countP (fun v => decide (v ≤ -hst)) ∧
      (l.foldl (bandAccum vel hst) acc).total =
        acc.total + ((compSamplesList vel l).length + (rebSamplesList vel l).length) := by
  intro l
  induction l with
  | nil =>
      intro acc
      simp [compSamplesList, rebSamplesList, listFlat]
  | cons s rest ih =>
      intro acc
      obtain ⟨ih1, ih2, ih3, ih4, ih5⟩ := ih (bandAccum vel hst acc s)
      have hlen : (pySlice vel s.Start (s.End + 1)).length =
          (pySlice vel s.Start (s.End + 1)).countP (fun v => decide (v < hst)) +
            (pySlice vel s.Start (s.End + 1)).countP (fun v => decide (hst ≤ v)) := by
        simpa using List.length_eq_countP_add_countP
          (p := fun v => decide (v < hst)) (l := pySlice vel s.Start (s.End + 1))
      have hlen2 : (pySlice vel s.Start (s.End + 1)).length =
          (pySlice vel s.Start (s.End + 1)).countP (fun v => decide (-hst < v)) +
            (pySlice vel s.Start (s.End + 1)).countP (fun v => decide (v ≤ -hst)) := by
        simpa using List.length_eq_countP_add_countP
          (p := fun v => decide (-hst < v)) (l := pySlice vel s.Start (s.End + 1))
      simp only [List.foldl_cons, compSamplesList_cons, rebSamplesList_cons]
      by_cases hb : strokeInBounds vel.length s
      · by_cases hs : 0 ≤ s.Stat.MaxVelocity
        · by_cases he : pySlice vel s.Start (s.End + 1) = []
          · have hstep : bandAccum vel hst acc s = acc := by
              simp [bandAccum, hb, he]
            rw [hstep] at ih1 ih2 ih3 ih4 ih5
            refine ⟨?_, ?_, ?_, ?_, ?_⟩ <;>
              simp [hstep, ih1, ih2, ih3, ih4, ih5, hb, hs, he]
          · have hl1 : (bandAccum vel hst acc s).lsc = acc.lsc +
                (pySlice vel s.Start (s.End + 1)).countP (fun v => decide (v < hst)) := by
              simp [bandAccum, hb, hs, he]
            have hl2 : (bandAccum vel hst acc s).hsc = acc.hsc +
                ((pySlice vel s.Start (s.End + 1)).length -
                  (pySlice vel s.Start (s.End + 1)).countP (fun v => decide (v < hst))) := by
              simp [bandAccum, hb, hs, he]
            have hl3 : (bandAccum vel hst acc s).lsr = acc.lsr := by
              simp [bandAccum, hb, hs, he]
            have hl4 : (bandAccum vel hst acc s).hsr = acc.hsr := by
              simp [bandAccum, hb, hs, he]
            have hl5 : (bandAccum vel hst acc s).total =
                acc.total + (pySlice vel s.Start (s.End + 1)).length := by
              simp [bandAccum, hb, hs, he]
            refine ⟨?_, ?_, ?_, ?_, ?_⟩ <;>
              simp [ih1, ih2, ih3, ih4, ih5, hl1, hl2, hl3, hl4, hl5, hb, hs, he,
                List.countP_append, List.length_append] <;>
              omega
        · by_cases he : pySlice vel s.Start (s.End + 1) = []
          · have hstep : bandAccum vel hst acc s = acc := by
              simp [bandAccum, hb, he]
            rw [hstep] at ih1 ih2 ih3 ih4 ih5
            refine ⟨?_, ?_, ?_, ?_, ?_⟩ <;>
              simp [hstep, ih1, ih2, ih3, ih4, ih5, hb, hs, he]
          · have hl1 : (bandAccum vel hst acc s).lsc = acc.lsc := by
              simp [bandAccum, hb, hs, he]
            have hl2 : (bandAccum vel hst acc s).hsc = acc.hsc := by
              simp [bandAccum, hb, hs, he]
            have hl3 : (bandAccum vel hst acc s).lsr = acc.lsr +
                (pySlice vel s.Start (s.End + 1)).countP (fun v => decide (-hst < v)) := by
              simp [bandAccum, hb, hs, he]
            have hl4 : (bandAccum vel hst acc s).hsr = acc.hsr +
                ((pySlice vel s.Start (s.End + 1)).length -
                  (pySlice vel s.Start (s.End + 1)).countP (fun v => decide (-hst < v))) := by
              simp [bandAccum, hb, hs, he]
            have hl5 : (bandAccum vel hst acc s).total =
                acc.total + (pySlice vel s.Start (s.End + 1)).length := by
              simp [bandAccum, hb, hs, he]
            refine ⟨?_, ?_, ?_, ?_, ?_⟩ <;>
              simp [ih1, ih2, ih3, ih4, ih5, hl1, hl2, hl3, hl4, hl5, hb, hs, he,
                List.countP_append, List.length_append] <;>
              omega
      · have hstep : bandAccum vel hst acc s = acc := by
          simp [bandAccum, hb]
        rw [hstep] at ih1 ih2 ih3 ih4 ih5
        refine ⟨?_, ?_, ?_, ?_, ?_⟩ <;>
          simp [hstep, ih1, ih2, ih3, ih4, ih5, hb]

/-- C4 counterexample: a compression-classified stroke
(`Stat.MaxVelocity = 100 >= 0`) containing the single sample -500 with
threshold 200: the source counts it as low-speed compression
(`-500 < 200`), while magnitude classification (`|-500| >= 200`) would
count it as high-speed compression. -/
theorem bandCounts_abs_claim_false :
    bandCounts ⟨[⟨0, 0, ⟨0, 0, 0, -500, 100, 0, 0, 0, 1⟩, [], [], []⟩], []⟩ [-500] 200 =
      ⟨1, 0, 0, 0, 1⟩ ∧
    bandCountsAbsClaim ⟨[⟨0, 0, ⟨0, 0, 0, -500, 100, 0, 0, 0, 1⟩, [], [], []⟩], []⟩ [-500] 200 =
      ⟨0, 1, 0, 0, 1⟩ ∧
    bandCounts ⟨[⟨0, 0, ⟨0, 0, 0, -500, 100, 0, 0, 0, 1⟩, [], [], []⟩], []⟩ [-500] 200 ≠
      bandCountsAbsClaim ⟨[⟨0, 0, ⟨0, 0, 0, -500, 100, 0, 0, 0, 1⟩, [], [], []⟩], []⟩ [-500] 200 := by
  decide

/-- C4 (amended): every in-stroke velocity sample is classified as
compression or rebound by the sign of the stroke's `Stat.MaxVelocity`
(non-negative meaning compression), and as low speed exactly when
`v < hst` in compression strokes and `v > -hst` in rebound strokes; the
four accumulated counts and their total reflect this classification over
all in-stroke samples. -/
theorem bandCounts_classification (strokes : Strokes) (vel : List ℚ) (hst : ℚ) :
    (bandCounts strokes vel hst).lsc =
      (compressionSamples strokes vel).countP (fun v => decide (v < hst)) ∧
    (bandCounts strokes vel hst).hsc =
      (compressionSamples strokes vel).countP (fun v => decide (hst ≤ v)) ∧
    (bandCounts strokes vel hst).lsr =
      (reboundSamples strokes vel).countP (fun v => decide (-hst < v)) ∧
    (bandCounts strokes vel hst).hsr =
      (reboundSamples strokes vel).countP (fun v => decide (v ≤ -hst)) ∧
    (bandCounts strokes vel hst).total =
      (compressionSamples strokes vel).length + (reboundSamples strokes vel).length := by
  obtain ⟨h1, h2, h3, h4, h5⟩ :=
    bandFold_counts vel hst (strokes.Compressions ++ strokes.Rebounds) ⟨0, 0, 0, 0, 0⟩
  exact ⟨by simpa [bandCounts, compressionSamples] using h1,
    by simpa [bandCounts, compressionSamples] using h2,
    by simpa [bandCounts, reboundSamples] using h3,
    by simpa [bandCounts, reboundSamples] using h4,
    by simpa [bandCounts, compressionSamples, reboundSamples] using h5⟩

/-- The compression loop collects exactly the strictly positive samples
of the concatenated in-stroke windows, when every stroke passes the
bounds guard. -/
theorem compFold_pts (vel : List ℚ) :
    ∀ (l : List Stroke) (acc : VelAcc),
      (∀ s ∈ l, velPointsGuard vel.length s) →
      (l.foldl (compAccum vel) acc).pts =
        acc.pts ++ (listFlat (fun s => pySlice vel s.Start (s.End + 1)) l).filter
          (fun v => decide (0 < v)) := by
  intro l
  induction l with
  | nil => intro acc _; simp [listFlat]
  | cons s rest ih =>
      intro acc hg
      have hgs := hg s (List.mem_cons_self s rest)
      have hvel : ¬ vel = [] := by
        intro hnil
        have h1 := hgs.1
        have h2 := hgs.2.1
        rw [hnil] at h2
        simp at h2
        omega
      rw [List.foldl_cons, ih _ (fun t ht => hg t (List.mem_cons_of_mem s ht))]
      simp [compAccum, hvel, hgs, listFlat, List.filter_append, List.append_assoc]

/-- The rebound loop collects exactly the magnitudes of the strictly
negative samples of the concatenated in-stroke windows, when every stroke
passes the bounds guard. -/
theorem rebFold_pts (vel : List ℚ) :
    ∀ (l : List Stroke) (acc : VelAcc),
      (∀ s ∈ l, velPointsGuard vel.length s) →
      (l.foldl (rebAccum vel) acc).pts =
        acc.pts ++ ((listFlat (fun s => pySlice vel s.Start (s.End + 1)) l).filter
          (fun v => decide (v < 0))).map (fun v => |v|) := by
  intro l
  induction l with
  | nil => intro acc _; simp [listFlat]
  | cons s rest ih =>
      intro acc hg
      have hgs := hg s (List.mem_cons_self s rest)
      have hvel : ¬ vel = [] := by
        intro hnil
        have h1 := hgs.1
        have h2 := hgs.2.1
        rw [hnil] at h2
        simp at h2
        omega
      rw [List.foldl_cons, ih _ (fun t ht => hg t (List.mem_cons_of_mem s ht))]
      simp [rebAccum, hvel, hgs, listFlat, List.filter_append, List.map_append,
        List.append_assoc]

/-- C9 counterexample: with `Velocity = [-10, 100, -100, 10]`, one
compression stroke over `[0, 1]` and one rebound stroke over `[2, 3]`,
the source computes P95 comp = 100 (only positive samples kept) and
P95 reb = -100 (only negative samples kept), while the claim's reading
over all in-stroke samples would give 94.5 and -95.5. -/
theorem velocityStats_p95_claim_false :
    (velocityStats ⟨[⟨0, 1, ⟨0, 0, 0, 90, 100, 0, 0, 0, 2⟩, [], [], []⟩],
        [⟨2, 3, ⟨0, 0, 0, -90, -100, 0, 0, 0, 2⟩, [], [], []⟩]⟩
      [-10, 100, -100, 10]).p95c = some 100 ∧
    p95CompClaim ⟨[⟨0, 1, ⟨0, 0, 0, 90, 100, 0, 0, 0, 2⟩, [], [], []⟩],
        [⟨2, 3, ⟨0, 0, 0, -90, -100, 0, 0, 0, 2⟩, [], [], []⟩]⟩
      [-10, 100, -100, 10] = some (189 / 2) ∧
    (velocityStats ⟨[⟨0, 1, ⟨0, 0, 0, 90, 100, 0, 0, 0, 2⟩, [], [], []⟩],
        [⟨2, 3, ⟨0, 0, 0, -90, -100, 0, 0, 0, 2⟩, [], [], []⟩]⟩
      [-10, 100, -100, 10]).p95r = some (-100) ∧
    p95RebClaim ⟨[⟨0, 1, ⟨0, 0, 0, 90, 100, 0, 0, 0, 2⟩, [], [], []⟩],
        [⟨2, 3, ⟨0, 0, 0, -90, -100, 0, 0, 0, 2⟩, [], [], []⟩]⟩
      [-10, 100, -100, 10] = some (-(191 / 2)) ∧
    ((189 : ℚ) / 2 ≠ 100 ∧ (-((191 : ℚ) / 2)) ≠ -100) := by
  have hfoldc : (([⟨0, 1, ⟨0, 0, 0, 90, 100, 0, 0, 0, 2⟩, [], [], []⟩] : List Stroke).foldl
      (compAccum [-10, 100, -100, 10]) ⟨0, 0, none, []⟩).pts = [100] := by decide
  have hfoldr : (([⟨2, 3, ⟨0, 0, 0, -90, -100, 0, 0, 0, 2⟩, [], [], []⟩] : List Stroke).foldl
      (rebAccum [-10, 100, -100, 10]) ⟨0, 0, none, []⟩).pts = [100] := by decide
  have hflatc : listFlat (fun s => pySlice [-10, 100, -100, 10] s.Start (s.End + 1))
      ([⟨0, 1, ⟨0, 0, 0, 90, 100, 0, 0, 0, 2⟩, [], [], []⟩] : List Stroke) = [-10, 100] := by
    decide
  have hflatr : (listFlat (fun s => pySlice [-10, 100, -100, 10] s.Start (s.End + 1))
      ([⟨2, 3, ⟨0, 0, 0, -90, -100, 0, 0, 0, 2⟩, [], [], []⟩] : List Stroke)).map
      (fun v => |v|) = [100, 10] := by decide
  have hp1 : percentile95 [100] = 100 := by
    norm_num [percentile95, sortAsc, insertAsc]
  have hp2 : percentile95 [-10, 100] = 189 / 2 := by
    norm_num [percentile95, sortAsc, insertAsc]
  have hp3 : percentile95 [100, 10] = 191 / 2 := by
    norm_num [percentile95, sortAsc, insertAsc]
  refine ⟨?_, ?_, ?_, ?_, by norm_num, by norm_num⟩
  · simp only [velocityStats]
    rw [hfoldc]
    simp [hp1]
  · simp only [p95CompClaim]
    rw [hflatc]
    simp [hp2]
  · simp only [velocityStats]
    rw [hfoldr]
    simp [hp1]
  · simp only [p95RebClaim]
    rw [hflatr]
    simp [hp3]

/-- C9 (amended): the compression 95th percentile equals the 95th
percentile of the strictly positive samples among the concatenated
in-stroke compression samples, and the rebound 95th percentile equals the
negation of the 95th percentile of the magnitudes of the strictly
negative samples among the concatenated in-stroke rebound samples (absent
samples of the excluded sign, each side is `None`). -/
theorem velocityStats_p95_filtered (strokes : Strokes) (vel : List ℚ)
    (hc : ∀ s ∈ strokes.Compressions, velPointsGuard vel.length s)
    (hr : ∀ s ∈ strokes.Rebounds, velPointsGuard vel.length s) :
    (velocityStats strokes vel).p95c =
      (if (listFlat (fun s => pySlice vel s.Start (s.End + 1))
            strokes.Compressions).filter (fun v => decide (0 < v)) = []
       then none
       else some (percentile95 ((listFlat (fun s => pySlice vel s.Start (s.End + 1))
            strokes.Compressions).filter (fun v => decide (0 < v))))) ∧
    (velocityStats strokes vel).p95r =
      (if ((listFlat (fun s => pySlice vel s.Start (s.End + 1))
            strokes.Rebounds).filter (fun v => decide (v < 0))).map (fun v => |v|) = []
       then none
       else some (-(percentile95 (((listFlat (fun s => pySlice vel s.Start (s.End + 1))
            strokes.Rebounds).filter (fun v => decide (v < 0))).map (fun v => |v|))))) := by
  have h1 := compFold_pts vel strokes.Compressions ⟨0, 0, none, []⟩ hc
  have h2 := rebFold_pts vel strokes.Rebounds ⟨0, 0, none, []⟩ hr
  simp only [List.nil_append] at h1 h2
  constructor
  · simp [velocityStats, h1]
  · simp [velocityStats, h2]

/-- Witness for C9 (amended) at the counterexample input, whose strokes
all satisfy the bounds guard. -/
theorem velocityStats_p95_filtered_witness :
    (∀ s ∈ ([⟨0, 1, ⟨0, 0, 0, 90, 100, 0, 0, 0, 2⟩, [], [], []⟩] : List Stroke),
      velPointsGuard ([-10, 100, -100, 10] : List ℚ).length s) ∧
    (∀ s ∈ ([⟨2, 3, ⟨0, 0, 0, -90, -100, 0, 0, 0, 2⟩, [], [], []⟩] : List Stroke),
      velPointsGuard ([-10, 100, -100, 10] : List ℚ).length s) ∧
    ((velocityStats ⟨[⟨0, 1, ⟨0, 0, 0, 90, 100, 0, 0, 0, 2⟩, [], [], []⟩],
          [⟨2, 3, ⟨0, 0, 0, -90, -100, 0, 0, 0, 2⟩, [], [], []⟩]⟩
        [-10, 100, -100, 10]).p95c =
      (if (listFlat (fun s => pySlice [-10, 100, -100, 10] s.Start (s.End + 1))
            ([⟨0, 1, ⟨0, 0, 0, 90, 100, 0, 0, 0, 2⟩, [], [], []⟩] : List Stroke)).filter
            (fun v => decide (0 < v)) = []
       then none
       else some (percentile95
          ((listFlat (fun s => pySlice [-10, 100, -100, 10] s.Start (s.End + 1))
            ([⟨0, 1, ⟨0, 0, 0, 90, 100, 0, 0, 0, 2⟩, [], [], []⟩] : List Stroke)).filter
            (fun v => decide (0 < v)))))) :=
  ⟨by decide, by decide,
    ((velocityStats_p95_filtered
      ⟨[⟨0, 1, ⟨0, 0, 0, 90, 100, 0, 0, 0, 2⟩, [], [], []⟩],
        [⟨2, 3, ⟨0, 0, 0, -90, -100, 0, 0, 0, 2⟩, [], [], []⟩]⟩
      [-10, 100, -100, 10] (by decide) (by decide)).1)⟩

/-- Bumping a cell preserves the row length. -/
theorem bump_length (row : List ℚ) (j : Nat) : (bump row j).length = row.length := by
  simp [bump]

/-- Bumping on a cons cell at a positive index skips the head. -/
theorem bump_cons_succ (x : ℚ) (xs : List ℚ) (j : Nat) :
    bump (x :: xs) (j + 1) = x :: bump xs j := by
  simp [bump]

/-- Bumping an in-range cell adds exactly 1 to the row sum. -/
theorem bump_sum (row : List ℚ) (j : Nat) (h : j < row.length) :
    (bump row j).sum = row.sum + 1 := by
  induction row generalizing j with
  | nil => simp at h
  | cons x xs ih =>
      cases j with
      | zero =>
          simp [bump]
          ring
      | succ n =>
          rw [bump_cons_succ, List.sum_cons, List.sum_cons,
            ih n (by simpa using h)]
          ring

/-- The travel-index loop preserves the histogram length. -/
theorem addTravelIdxs_length (histLen : Nat) :
    ∀ (idxs : List Int) (hist : List ℚ),
      (addTravelIdxs histLen hist idxs).length = hist.length := by
  intro idxs
  induction idxs with
  | nil => intro hist; rfl
  | cons d rest ih =>
      intro hist
      unfold addTravelIdxs at ih ⊢
      rw [List.foldl_cons, ih]
      split <;> simp [bump_length]

/-- When every index is in range, the travel-index loop adds exactly the
number of indices to the histogram sum. -/
theorem addTravelIdxs_sum (histLen : Nat) :
    ∀ (idxs : List Int) (hist : List ℚ),
      hist.length = histLen →
      (∀ d ∈ idxs, 0 ≤ d ∧ d < (histLen : Int)) →
      (addTravelIdxs histLen hist idxs).sum = hist.sum + idxs.length := by
  intro idxs
  induction idxs with
  | nil => intro hist _ _; simp [addTravelIdxs]
  | cons d rest ih =>
      intro hist hlen hmem
      have hd := hmem d (List.mem_cons_self d rest)
      unfold addTravelIdxs at ih ⊢
      rw [List.foldl_cons, if_pos hd,
        ih (bump hist d.toNat) (by rw [bump_length, hlen])
          (fun t ht => hmem t (List.mem_cons_of_mem d ht)),
        bump_sum hist d.toNat (by omega)]
      simp only [List.length_cons]
      push_cast
      ring

/-- The accumulation loop of the travel histogram: under the data-model
invariant, the final total is the accumulated `Stat.Count` sum, the
histogram sum grows by exactly that total, and the histogram length is
preserved. -/
theorem travelFold_spec (histLen : Nat) :
    ∀ (l : List Stroke) (hist : List ℚ) (t : Int),
      hist.length = histLen →
      (∀ s ∈ l, WFTravelStroke histLen s) →
      (l.foldl (fun acc s =>
          (addTravelIdxs histLen acc.1 s.DigitizedTravel, acc.2 + s.Stat.Count))
        (hist, t)).2 = t + (l.map (fun s => s.Stat.Count)).sum ∧
      ((l.foldl (fun acc s =>
          (addTravelIdxs histLen acc.1 s.DigitizedTravel, acc.2 + s.Stat.Count))
        (hist, t)).1).sum = hist.sum + (((l.map (fun s => s.Stat.Count)).sum : Int) : ℚ) ∧
      ((l.foldl (fun acc s =>
          (addTravelIdxs histLen acc.1 s.DigitizedTravel, acc.2 + s.Stat.Count))
        (hist, t)).1).length = histLen := by
  intro l
  induction l with
  | nil =>
      intro hist t hlen _
      refine ⟨by simp, by simp, by simpa using hlen⟩
  | cons s rest ih =>
      intro hist t hlen hwf
      have hs := hwf s (List.mem_cons_self s rest)
      obtain ⟨hc0, hclen, hcr⟩ := hs
      have hrest := fun u hu => hwf u (List.mem_cons_of_mem s hu)
      have hlen2 : (addTravelIdxs histLen hist s.DigitizedTravel).length = histLen := by
        rw [addTravelIdxs_length, hlen]
      obtain ⟨ihA, ihB, ihC⟩ :=
        ih (addTravelIdxs histLen hist s.DigitizedTravel) (t + s.Stat.Count) hlen2 hrest
      rw [List.foldl_cons]
      refine ⟨?_, ?_, ihC⟩
      · rw [ihA]
        simp only [List.map_cons, List.sum_cons]
        omega
      · rw [ihB, addTravelIdxs_sum histLen s.DigitizedTravel hist hlen hcr, hclen]
        have hInt : (s.Stat.Count.toNat : Int) = s.Stat.Count := Int.toNat_of_nonneg hc0
        have hQ : ((s.Stat.Count.toNat : Nat) : ℚ) = ((s.Stat.Count : Int) : ℚ) := by
          exact_mod_cast hInt
        simp only [List.map_cons, List.sum_cons]
        rw [hQ]
        push_cast
        ring

/-- The accumulated `Stat.Count` sum is non-negative under the data-model
invariant. -/
theorem countSum_nonneg (histLen : Nat) : ∀ (l : List Stroke),
    (∀ s ∈ l, WFTravelStroke histLen s) →
    0 ≤ (l.map (fun s => s.Stat.Count)).sum := by
  intro l
  induction l with
  | nil => intro _; simp
  | cons s rest ih =>
      intro h
      have h1 := (h s (List.mem_cons_self s rest)).1
      have h2 := ih (fun u hu => h u (List.mem_cons_of_mem s hu))
      simp only [List.map_cons, List.sum_cons]
      omega

/-- When the accumulated `Stat.Count` total is zero, no index is processed
and the histogram is unchanged. -/
theorem travelFold_zero (histLen : Nat) :
    ∀ (l : List Stroke) (hist : List ℚ) (t : Int),
      (∀ s ∈ l, WFTravelStroke histLen s) →
      (l.map (fun s => s.Stat.Count)).sum = 0 →
      (l.foldl (fun acc s =>
          (addTravelIdxs histLen acc.1 s.DigitizedTravel, acc.2 + s.Stat.Count))
        (hist, t)).1 = hist := by
  intro l
  induction l with
  | nil => intro hist t _ _; rfl
  | cons s rest ih =>
      intro hist t hwf hsum
      have hs := hwf s (List.mem_cons_self s rest)
      have hrest := fun u hu => hwf u (List.mem_cons_of_mem s hu)
      have hnn : 0 ≤ (rest.map (fun s => s.Stat.Count)).sum :=
        countSum_nonneg histLen rest hrest
      have hszero : s.Stat.Count = 0 := by
        simp only [List.map_cons, List.sum_cons] at hsum
        have := hs.1
        omega
      have hempty : s.DigitizedTravel = [] := by
        have := hs.2.1
        rw [hszero] at this
        simpa using this
      rw [List.foldl_cons, hempty]
      have hrsum : (rest.map (fun s => s.Stat.Count)).sum = 0 := by
        simp only [List.map_cons, List.sum_cons] at hsum
        omega
      simpa [addTravelIdxs] using ih hist (t + s.Stat.Count) hrest hrsum

/-- Sum of a percentage-normalised row. -/
theorem sum_map_perc (t : ℚ) : ∀ (r : List ℚ),
    (r.map (fun v => v / t * 100)).sum = r.sum / t * 100 := by
  intro r
  induction r with
  | nil => simp
  | cons x xs ih =>
      simp only [List.map_cons, List.sum_cons, ih]
      ring

/-- There is always at least one coarse travel bucket. -/
theorem numTravelBins_pos (tbins : List ℚ) : 0 < numTravelBins tbins := by
  unfold numTravelBins
  split <;> omega

/-- A clamped index lies inside its bucket range. -/
theorem clampIdx_lt (x : Int) (n : Nat) (h : 0 < n) :
    (min (max 0 x) ((n : Int) - 1)).toNat < n := by
  omega

/-- The coarse travel-bucket index lies inside the coarse range. -/
theorem tbinIndex_lt (tbins : List ℚ) (d : Int) :
    tbinIndex tbins d < numTravelBins tbins := by
  unfold tbinIndex
  have := numTravelBins_pos tbins
  dsimp only
  omega

/-- Unfolding of `grandSum` on a cons cell. -/
theorem grandSum_cons (r : List ℚ) (h : List (List ℚ)) :
    grandSum (r :: h) = r.sum + grandSum h := by
  simp [grandSum]

/-- Head-case unfolding of `bump2`. -/
theorem bump2_cons_zero (r : List ℚ) (rest : List (List ℚ)) (j : Nat) :
    bump2 (r :: rest) 0 j = bump r j :: rest := by
  simp [bump2]

/-- Tail-case unfolding of `bump2`. -/
theorem bump2_cons_succ (r : List ℚ) (rest : List (List ℚ)) (i j : Nat) :
    bump2 (r :: rest) (i + 1) j = r :: bump2 rest i j := by
  simp [bump2]

/-- `bump2` preserves the histogram shape whenever the row index is in
range. -/
theorem bump2_shaped (h : List (List ℚ)) (rows cols i j : Nat)
    (hs : Shaped2 h rows cols) (hi : i < rows) :
    Shaped2 (bump2 h i j) rows cols := by
  obtain ⟨hl, hr⟩ := hs
  refine ⟨by simp [bump2, hl], ?_⟩
  intro r hrm
  rcases List.mem_or_eq_of_mem_set hrm with hmem | heq
  · exact hr r hmem
  · subst heq
    rw [bump_length, List.getD_eq_getElem h [] (by omega)]
    exact hr _ (List.getElem_mem (by omega))

/-- `bump2` at an in-range cell adds exactly 1 to the histogram sum. -/
theorem bump2_grandSum : ∀ (h : List (List ℚ)) (i j cols : Nat),
    (∀ r ∈ h, r.length = cols) → i < h.length → j < cols →
    grandSum (bump2 h i j) = grandSum h + 1 := by
  intro h
  induction h with
  | nil => intro i j cols _ hi _; simp at hi
  | cons r rest ih =>
      intro i j cols hr hi hj
      cases i with
      | zero =>
          rw [bump2_cons_zero, grandSum_cons, grandSum_cons,
            bump_sum r j (by rw [hr r (List.mem_cons_self r rest)]; exact hj)]
          ring
      | succ n =>
          rw [bump2_cons_succ, grandSum_cons, grandSum_cons,
            ih n j cols (fun u hu => hr u (List.mem_cons_of_mem r hu))
              (by simpa using hi) hj]
          ring

/-- Sum of a fully percentage-normalised 2-dimensional histogram. -/
theorem grandSum_perc (t : ℚ) : ∀ (h : List (List ℚ)),
    grandSum (h.map (fun r => r.map (fun v => v / t * 100))) = grandSum h / t * 100 := by
  intro h
  induction h with
  | nil => simp [grandSum]
  | cons r rest ih =>
      simp only [List.map_cons, grandSum_cons, ih, sum_map_perc]
      ring

/-- One sample step of the velocity histograms: the coarse histogram sum
grows by exactly 1 and both shapes are preserved. -/
theorem vhistSample_spec (tbins vbinsFine : List ℚ) (hst stepLow : ℚ)
    (shapeV shapeVF : Nat) (s : Stroke)
    (acc : List (List ℚ) × List (List ℚ)) (i : Nat)
    (h1 : Shaped2 acc.1 (numTravelBins tbins) shapeV)
    (h2 : Shaped2 acc.2 (numTravelBins tbins) shapeVF)
    (hv : 0 < shapeV) :
    grandSum (vhistSample tbins vbinsFine hst stepLow shapeV shapeVF s acc i).1 =
      grandSum acc.1 + 1 ∧
    Shaped2 (vhistSample tbins vbinsFine hst stepLow shapeV shapeVF s acc i).1
      (numTravelBins tbins) shapeV ∧
    Shaped2 (vhistSample tbins vbinsFine hst stepLow shapeV shapeVF s acc i).2
      (numTravelBins tbins) shapeVF := by
  unfold vhistSample
  rw [if_neg (by have := numTravelBins_pos tbins; omega)]
  dsimp only
  rw [if_pos hv]
  refine ⟨?_, ?_, ?_⟩
  · exact bump2_grandSum acc.1 _ _ shapeV h1.2 (by rw [h1.1]; exact tbinIndex_lt tbins _)
      (clampIdx_lt _ shapeV hv)
  · exact bump2_shaped acc.1 _ shapeV _ _ h1 (tbinIndex_lt tbins _)
  · split
    · split
      · split
        · exact bump2_shaped acc.2 _ shapeVF _ _ h2 (tbinIndex_lt tbins _)
        · exact h2
      · exact h2
    · exact h2

/-- Folding the per-sample update over an index list adds the number of
samples to the coarse histogram sum and preserves both shapes. -/
theorem vhistSampleFold (tbins vbinsFine : List ℚ) (hst stepLow : ℚ)
    (shapeV shapeVF : Nat) (s : Stroke) (hv : 0 < shapeV) :
    ∀ (idxs : List Nat) (acc : List (List ℚ) × List (List ℚ)),
      Shaped2 acc.1 (numTravelBins tbins) shapeV →
      Shaped2 acc.2 (numTravelBins tbins) shapeVF →
      grandSum ((idxs.foldl (vhistSample tbins vbinsFine hst stepLow shapeV shapeVF s) acc).1) =
        grandSum acc.1 + idxs.length ∧
      Shaped2 ((idxs.foldl (vhistSample tbins vbinsFine hst stepLow shapeV shapeVF s) acc).1)
        (numTravelBins tbins) shapeV ∧
      Shaped2 ((idxs.foldl (vhistSample tbins vbinsFine hst stepLow shapeV shapeVF s) acc).2)
        (numTravelBins tbins) shapeVF := by
  intro idxs
  induction idxs with
  | nil => intro acc h1 h2; exact ⟨by simp, h1, h2⟩
  | cons i rest ih =>
      intro acc h1 h2
      obtain ⟨hsum, hs1, hs2⟩ :=
        vhistSample_spec tbins vbinsFine hst stepLow shapeV shapeVF s acc i h1 h2 hv
      obtain ⟨ihA, ihB, ihC⟩ :=
        ih (vhistSample tbins vbinsFine hst stepLow shapeV shapeVF s acc i) hs1 hs2
      rw [List.foldl_cons]
      refine ⟨?_, ihB, ihC⟩
      rw [ihA, hsum]
      simp only [List.length_cons]
      push_cast
      ring

/-- The iteration length of a stroke satisfying the data-model invariant
is exactly `Stat.Count`. -/
theorem strokeIterLen_eq (s : Stroke) (h : WFVelStroke s) :
    strokeIterLen s = s.Stat.Count.toNat := by
  obtain ⟨_, h1, h2, h3⟩ := h
  unfold strokeIterLen
  rw [h1, h2, h3]
  simp

/-- The per-stroke fold of the velocity histograms: the total grows by the
accumulated positive counts, the coarse histogram sum grows by the same
amount, and both shapes are preserved. -/
theorem vhistStrokeFold (tbins vbinsFine : List ℚ) (hst stepLow : ℚ)
    (shapeV shapeVF : Nat) (hv : 0 < shapeV) :
    ∀ (l : List Stroke) (acc : List (List ℚ) × List (List ℚ) × Int),
      Shaped2 acc.1 (numTravelBins tbins) shapeV →
      Shaped2 acc.2.1 (numTravelBins tbins) shapeVF →
      (∀ s ∈ l, WFVelStroke s) →
      (l.foldl (vhistStroke tbins vbinsFine hst stepLow shapeV shapeVF) acc).2.2 =
        acc.2.2 + (l.map (fun s => if 0 < s.Stat.Count then s.Stat.Count else 0)).sum ∧
      grandSum ((l.foldl (vhistStroke tbins vbinsFine hst stepLow shapeV shapeVF) acc).1) =
        grandSum acc.1 +
          (((l.map (fun s => if 0 < s.Stat.Count then s.Stat.Count else 0)).sum : Int) : ℚ) ∧
      Shaped2 ((l.foldl (vhistStroke tbins vbinsFine hst stepLow shapeV shapeVF) acc).1)
        (numTravelBins tbins) shapeV ∧
      Shaped2 ((l.foldl (vhistStroke tbins vbinsFine hst stepLow shapeV shapeVF) acc).2.1)
        (numTravelBins tbins) shapeVF := by
  intro l
  induction l with
  | nil => intro acc h1 h2 _; exact ⟨by simp, by simp, h1, h2⟩
  | cons s rest ih =>
      intro acc h1 h2 hwf
      have hs := hwf s (List.mem_cons_self s rest)
      have hrest := fun u hu => hwf u (List.mem_cons_of_mem s hu)
      rw [List.foldl_cons]
      by_cases hcnt : 0 < s.Stat.Count
      · have hne1 : s.DigitizedTravel ≠ [] := by
          have := hs.2.1
          intro hnil
          rw [hnil] at this
          simp at this
          omega
        have hne2 : s.DigitizedVelocity ≠ [] := by
          have := hs.2.2.1
          intro hnil
          rw [hnil] at this
          simp at this
          omega
        have hne3 : s.FineDigitizedVelocity ≠ [] := by
          have := hs.2.2.2
          intro hnil
          rw [hnil] at this
          simp at this
          omega
        obtain ⟨hfA, hfB, hfC⟩ :=
          vhistSampleFold tbins vbinsFine hst stepLow shapeV shapeVF s hv
            (List.range (strokeIterLen s)) (acc.1, acc.2.1) h1 h2
        have hstep : vhistStroke tbins vbinsFine hst stepLow shapeV shapeVF acc s =
            (((List.range (strokeIterLen s)).foldl
                (vhistSample tbins vbinsFine hst stepLow shapeV shapeVF s) (acc.1, acc.2.1)).1,
             ((List.range (strokeIterLen s)).foldl
                (vhistSample tbins vbinsFine hst stepLow shapeV shapeVF s) (acc.1, acc.2.1)).2,
             acc.2.2 + s.Stat.Count) := by
          unfold vhistStroke
          rw [if_pos hcnt, if_pos ⟨hne1, hne2, hne3⟩]
        rw [hstep]
        obtain ⟨ihA, ihB, ihC, ihD⟩ :=
          ih (((List.range (strokeIterLen s)).foldl
                (vhistSample tbins vbinsFine hst stepLow shapeV shapeVF s) (acc.1, acc.2.1)).1,
              ((List.range (strokeIterLen s)).foldl
                (vhistSample tbins vbinsFine hst stepLow shapeV shapeVF s) (acc.1, acc.2.1)).2,
              acc.2.2 + s.Stat.Count) hfB hfC hrest
        refine ⟨?_, ?_, ihC, ihD⟩
        · rw [ihA]
          simp only [List.map_cons, List.sum_cons, if_pos hcnt]
          omega
        · rw [ihB, hfA, strokeIterLen_eq s hs]
          have hInt : (s.Stat.Count.toNat : Int) = s.Stat.Count :=
            Int.toNat_of_nonneg (by omega)
          have hQ : ((s.Stat.Count.toNat : Nat) : ℚ) = ((s.Stat.Count : Int) : ℚ) := by
            exact_mod_cast hInt
          simp only [List.map_cons, List.sum_cons, if_pos hcnt, List.length_range]
          rw [hQ]
          push_cast
          ring
      · have hstep : vhistStroke tbins vbinsFine hst stepLow shapeV shapeVF acc s = acc := by
          unfold vhistStroke
          rw [if_neg hcnt]
        rw [hstep]
        obtain ⟨ihA, ihB, ihC, ihD⟩ := ih acc h1 h2 hrest
        refine ⟨?_, ?_, ihC, ihD⟩
        · rw [ihA]
          simp only [List.map_cons, List.sum_cons, if_neg hcnt]
          omega
        · rw [ihB]
          simp only [List.map_cons, List.sum_cons, if_neg hcnt]
          push_cast
          ring

/-- The total accumulated by the velocity-histogram fold never
decreases. -/
theorem vhistFold_total_mono (tbins vbinsFine : List ℚ) (hst stepLow : ℚ)
    (shapeV shapeVF : Nat) :
    ∀ (l : List Stroke) (acc : List (List ℚ) × List (List ℚ) × Int),
      acc.2.2 ≤ (l.foldl (vhistStroke tbins vbinsFine hst stepLow shapeV shapeVF) acc).2.2 := by
  intro l
  induction l with
  | nil => intro acc; simp
  | cons s rest ih =>
      intro acc
      rw [List.foldl_cons]
      refine le_trans ?_ (ih (vhistStroke tbins vbinsFine hst stepLow shapeV shapeVF acc s))
      unfold vhistStroke
      by_cases hcnt : 0 < s.Stat.Count
      · rw [if_pos hcnt]
        split <;> simp <;> omega
      · rw [if_neg hcnt]

/-- When the velocity-histogram fold leaves the total unchanged, it leaves
both histograms unchanged. -/
theorem vhistFold_zero (tbins vbinsFine : List ℚ) (hst stepLow : ℚ)
    (shapeV shapeVF : Nat) :
    ∀ (l : List Stroke) (acc : List (List ℚ) × List (List ℚ) × Int),
      (l.foldl (vhistStroke tbins vbinsFine hst stepLow shapeV shapeVF) acc).2.2 = acc.2.2 →
      (l.foldl (vhistStroke tbins vbinsFine hst stepLow shapeV shapeVF) acc).1 = acc.1 ∧
      (l.foldl (vhistStroke tbins vbinsFine hst stepLow shapeV shapeVF) acc).2.1 = acc.2.1 := by
  intro l
  induction l with
  | nil => intro acc _; exact ⟨rfl, rfl⟩
  | cons s rest ih =>
      intro acc htot
      rw [List.foldl_cons] at htot ⊢
      by_cases hcnt : 0 < s.Stat.Count
      · exfalso
        have hmono := vhistFold_total_mono tbins vbinsFine hst stepLow shapeV shapeVF rest
          (vhistStroke tbins vbinsFine hst stepLow shapeV shapeVF acc s)
        have hstep : acc.2.2 + s.Stat.Count ≤
            (vhistStroke tbins vbinsFine hst stepLow shapeV shapeVF acc s).2.2 := by
          unfold vhistStroke
          rw [if_pos hcnt]
          split <;> simp
        omega
      · have hstep : vhistStroke tbins vbinsFine hst stepLow shapeV shapeVF acc s = acc := by
          unfold vhistStroke
          rw [if_neg hcnt]
        rw [hstep] at htot ⊢
        exact ih acc htot

/-- C8: under the data-model invariant of spec section 3 (digitized-array
lengths equal to `Stat.Count`, travel indices inside the bucket range),
the per-bin percentages of the travel histogram and of the coarse
velocity histogram sum to exactly 100 whenever the accumulated
`Stat.Count` total is positive, and are all zero when the total is
zero. -/
theorem histogram_percentages_sum (strokes : Strokes) (binsMm : List ℚ)
    (theoMax hst : ℚ) (tbins vbins vbinsFine : List ℚ)
    (hwt : ∀ s ∈ strokes.Compressions ++ strokes.Rebounds,
      WFTravelStroke (binsMm.length - 1) s)
    (hwv : ∀ s ∈ strokes.Compressions ++ strokes.Rebounds, WFVelStroke s) :
    (0 < travelTotalCount strokes binsMm →
      (travelHistogramData strokes binsMm theoMax).timePerc.sum = 100) ∧
    (travelTotalCount strokes binsMm = 0 →
      ∀ x ∈ (travelHistogramData strokes binsMm theoMax).timePerc, x = 0) ∧
    (0 < (velocityHistogramData strokes hst tbins vbins vbinsFine).totalCount →
      grandSum (velocityHistogramData strokes hst tbins vbins vbinsFine).hist = 100) ∧
    ((velocityHistogramData strokes hst tbins vbins vbinsFine).totalCount = 0 →
      ∀ r ∈ (velocityHistogramData strokes hst tbins vbins vbinsFine).hist,
        ∀ x ∈ r, x = 0) := by
  have hEq : (if 1 < binsMm.length then binsMm.length - 1 else 0) = binsMm.length - 1 := by
    split <;> omega
  obtain ⟨hA, hB, hC⟩ := travelFold_spec (binsMm.length - 1)
    (strokes.Compressions ++ strokes.Rebounds)
    (List.replicate (binsMm.length - 1) (0 : ℚ)) 0 (by simp) hwt
  have hsum2 : (travelHistCounts strokes (binsMm.length - 1)).2 =
      ((strokes.Compressions ++ strokes.Rebounds).map (fun s => s.Stat.Count)).sum := by
    unfold travelHistCounts
    rw [hA]
    omega
  have hhist_sum : (travelHistCounts strokes (binsMm.length - 1)).1.sum =
      (((travelHistCounts strokes (binsMm.length - 1)).2 : Int) : ℚ) := by
    unfold travelHistCounts
    rw [hB, hA]
    simp [List.sum_replicate]
  have hTTC : travelTotalCount strokes binsMm =
      if 0 < binsMm.length - 1 then (travelHistCounts strokes (binsMm.length - 1)).2
      else 0 := by
    unfold travelTotalCount
    rw [hEq]
  have hTP : (travelHistogramData strokes binsMm theoMax).timePerc =
      (if 0 < binsMm.length - 1 then
        (if 0 < (travelHistCounts strokes (binsMm.length - 1)).2 then
          (travelHistCounts strokes (binsMm.length - 1)).1.map
            (fun v => v / ((travelHistCounts strokes (binsMm.length - 1)).2 : ℚ) * 100)
         else (travelHistCounts strokes (binsMm.length - 1)).1)
       else List.replicate (binsMm.length - 1) 0) := by
    unfold travelHistogramData
    rw [hEq]
    dsimp only
    split <;> rfl
  have hshapeV : 0 < (if 1 < vbins.length then vbins.length - 1 else 1) := by
    split <;> omega
  have hinit1 : Shaped2
      (List.replicate (numTravelBins tbins)
        (List.replicate (if 1 < vbins.length then vbins.length - 1 else 1) (0 : ℚ)))
      (numTravelBins tbins) (if 1 < vbins.length then vbins.length - 1 else 1) :=
    ⟨List.length_replicate _ _, fun r hr => by
      rw [List.eq_of_mem_replicate hr]; exact List.length_replicate _ _⟩
  have hinit2 : Shaped2
      (List.replicate (numTravelBins tbins)
        (List.replicate (if 1 < vbinsFine.length then vbinsFine.length - 1 else 1) (0 : ℚ)))
      (numTravelBins tbins) (if 1 < vbinsFine.length then vbinsFine.length - 1 else 1) :=
    ⟨List.length_replicate _ _, fun r hr => by
      rw [List.eq_of_mem_replicate hr]; exact List.length_replicate _ _⟩
  obtain ⟨hvA, hvB, hvC, hvD⟩ := vhistStrokeFold tbins vbinsFine hst
    (if 1 < vbinsFine.length then vbinsFine.getD 1 0 - vbinsFine.getD 0 0 else 1)
    (if 1 < vbins.length then vbins.length - 1 else 1)
    (if 1 < vbinsFine.length then vbinsFine.length - 1 else 1)
    hshapeV (strokes.Compressions ++ strokes.Rebounds)
    (List.replicate (numTravelBins tbins)
        (List.replicate (if 1 < vbins.length then vbins.length - 1 else 1) (0 : ℚ)),
     List.replicate (numTravelBins tbins)
        (List.replicate (if 1 < vbinsFine.length then vbinsFine.length - 1 else 1) (0 : ℚ)),
     (0 : Int))
    hinit1 hinit2 hwv
  have hVTot : (velocityHistogramData strokes hst tbins vbins vbinsFine).totalCount =
      ((strokes.Compressions ++ strokes.Rebounds).foldl
        (vhistStroke tbins vbinsFine hst
          (if 1 < vbinsFine.length then vbinsFine.getD 1 0 - vbinsFine.getD 0 0 else 1)
          (if 1 < vbins.length then vbins.length - 1 else 1)
          (if 1 < vbinsFine.length then vbinsFine.length - 1 else 1))
        (List.replicate (numTravelBins tbins)
            (List.replicate (if 1 < vbins.length then vbins.length - 1 else 1) (0 : ℚ)),
         List.replicate (numTravelBins tbins)
            (List.replicate (if 1 < vbinsFine.length then vbinsFine.length - 1 else 1) (0 : ℚ)),
         (0 : Int))).2.2 := rfl
  have hVHist : (velocityHistogramData strokes hst tbins vbins vbinsFine).hist =
      (if 0 < ((strokes.Compressions ++ strokes.Rebounds).foldl
          (vhistStroke tbins vbinsFine hst
            (if 1 < vbinsFine.length then vbinsFine.getD 1 0 - vbinsFine.getD 0 0 else 1)
            (if 1 < vbins.length then vbins.length - 1 else 1)
            (if 1 < vbinsFine.length then vbinsFine.length - 1 else 1))
          (List.replicate (numTravelBins tbins)
              (List.replicate (if 1 < vbins.length then vbins.length - 1 else 1) (0 : ℚ)),
           List.replicate (numTravelBins tbins)
              (List.replicate (if 1 < vbinsFine.length then vbinsFine.length - 1 else 1) (0 : ℚ)),
           (0 : Int))).2.2 then
        ((strokes.Compressions ++ strokes.Rebounds).foldl
          (vhistStroke tbins vbinsFine hst
            (if 1 < vbinsFine.length then vbinsFine.getD 1 0 - vbinsFine.getD 0 0 else 1)
            (if 1 < vbins.length then vbins.length - 1 else 1)
            (if 1 < vbinsFine.length then vbinsFine.length - 1 else 1))
          (List.replicate (numTravelBins tbins)
              (List.replicate (if 1 < vbins.length then vbins.length - 1 else 1) (0 : ℚ)),
           List.replicate (numTravelBins tbins)
              (List.replicate (if 1 < vbinsFine.length then vbinsFine.length - 1 else 1) (0 : ℚ)),
           (0 : Int))).1.map (fun r => r.map (fun v =>
            v / (((strokes.Compressions ++ strokes.Rebounds).foldl
              (vhistStroke tbins vbinsFine hst
                (if 1 < vbinsFine.length then vbinsFine.getD 1 0 - vbinsFine.getD 0 0 else 1)
                (if 1 < vbins.length then vbins.length - 1 else 1)
                (if 1 < vbinsFine.length then vbinsFine.length - 1 else 1))
              (List.replicate (numTravelBins tbins)
                  (List.replicate (if 1 < vbins.length then vbins.length - 1 else 1) (0 : ℚ)),
               List.replicate (numTravelBins tbins)
                  (List.replicate (if 1 < vbinsFine.length then vbinsFine.length - 1 else 1) (0 : ℚ)),
               (0 : Int))).2.2 : ℚ) * 100))
       else ((strokes.Compressions ++ strokes.Rebounds).foldl
          (vhistStroke tbins vbinsFine hst
            (if 1 < vbinsFine.length then vbinsFine.getD 1 0 - vbinsFine.getD 0 0 else 1)
            (if 1 < vbins.length then vbins.length - 1 else 1)
            (if 1 < vbinsFine.length then vbinsFine.length - 1 else 1))
          (List.replicate (numTravelBins tbins)
              (List.replicate (if 1 < vbins.length then vbins.length - 1 else 1) (0 : ℚ)),
           List.replicate (numTravelBins tbins)
              (List.replicate (if 1 < vbinsFine.length then vbinsFine.length - 1 else 1) (0 : ℚ)),
           (0 : Int))).1) := rfl
  set F := (strokes.Compressions ++ strokes.Rebounds).foldl
    (vhistStroke tbins vbinsFine hst
      (if 1 < vbinsFine.length then vbinsFine.getD 1 0 - vbinsFine.getD 0 0 else 1)
      (if 1 < vbins.length then vbins.length - 1 else 1)
      (if 1 < vbinsFine.length then vbinsFine.length - 1 else 1))
    (List.replicate (numTravelBins tbins)
        (List.replicate (if 1 < vbins.length then vbins.length - 1 else 1) (0 : ℚ)),
     List.replicate (numTravelBins tbins)
        (List.replicate (if 1 < vbinsFine.length then vbinsFine.length - 1 else 1) (0 : ℚ)),
     (0 : Int)) with hF
  set P := ((strokes.Compressions ++ strokes.Rebounds).map
    (fun s => if 0 < s.Stat.Count then s.Stat.Count else 0)).sum with hP
  have hinitsum : grandSum
      (List.replicate (numTravelBins tbins)
        (List.replicate (if 1 < vbins.length then vbins.length - 1 else 1) (0 : ℚ))) = 0 := by
    simp [grandSum, List.map_replicate, List.sum_replicate]
  have hPS : F.2.2 = P := by
    rw [hvA]
    show (0 : Int) + P = P
    omega
  have hGS : grandSum F.1 = ((P : Int) : ℚ) := by
    rw [hvB, hinitsum]
    ring
  refine ⟨?_, ?_, ?_, ?_⟩
  · intro hpos
    rw [hTTC] at hpos
    by_cases hlen : 0 < binsMm.length - 1
    · rw [if_pos hlen] at hpos
      have hne : ((travelHistCounts strokes (binsMm.length - 1)).2 : ℚ) ≠ 0 :=
        Int.cast_ne_zero.mpr (by omega)
      rw [hTP, if_pos hlen, if_pos hpos, sum_map_perc, hhist_sum, div_self hne]
      norm_num
    · rw [if_neg hlen] at hpos
      omega
  · intro h0
    rw [hTTC] at h0
    by_cases hlen : 0 < binsMm.length - 1
    · rw [if_pos hlen] at h0
      have hz := travelFold_zero (binsMm.length - 1)
        (strokes.Compressions ++ strokes.Rebounds)
        (List.replicate (binsMm.length - 1) (0 : ℚ)) 0 hwt (by omega)
      have hcz : (travelHistCounts strokes (binsMm.length - 1)).1 =
          List.replicate (binsMm.length - 1) 0 := hz
      rw [hTP, if_pos hlen, if_neg (by omega), hcz]
      intro x hx
      exact List.eq_of_mem_replicate hx
    · rw [hTP, if_neg hlen]
      intro x hx
      exact List.eq_of_mem_replicate hx
  · intro hpos
    rw [hVTot] at hpos
    have hne : ((F.2.2 : Int) : ℚ) ≠ 0 := Int.cast_ne_zero.mpr (by omega)
    rw [hVHist, if_pos hpos, grandSum_perc, hGS, ← hPS, div_self hne]
    norm_num
  · intro h0
    rw [hVTot] at h0
    obtain ⟨hz1, _⟩ := vhistFold_zero tbins vbinsFine hst
      (if 1 < vbinsFine.length then vbinsFine.getD 1 0 - vbinsFine.getD 0 0 else 1)
      (if 1 < vbins.length then vbins.length - 1 else 1)
      (if 1 < vbinsFine.length then vbinsFine.length - 1 else 1)
      (strokes.Compressions ++ strokes.Rebounds)
      (List.replicate (numTravelBins tbins)
          (List.replicate (if 1 < vbins.length then vbins.length - 1 else 1) (0 : ℚ)),
       List.replicate (numTravelBins tbins)
          (List.replicate (if 1 < vbinsFine.length then vbinsFine.length - 1 else 1) (0 : ℚ)),
       (0 : Int))
      h0
    rw [hVHist, if_neg (by omega), hz1]
    intro r hr x hx
    rw [List.eq_of_mem_replicate hr] at hx
    exact List.eq_of_mem_replicate hx

/-- Witness for C8 at a one-stroke input (Scenario A shape): one
compression stroke with `Count = 1` and digitized index 0 everywhere,
two-edge bin arrays. -/
theorem histogram_percentages_sum_witness :
    (∀ s ∈ (⟨[⟨0, 0, ⟨0, 0, 0, 0, 0, 0, 0, 0, 1⟩, [0], [0], [0]⟩], []⟩ : Strokes).Compressions ++
        (⟨[⟨0, 0, ⟨0, 0, 0, 0, 0, 0, 0, 0, 1⟩, [0], [0], [0]⟩], []⟩ : Strokes).Rebounds,
      WFTravelStroke (([0, 10] : List ℚ).length - 1) s) ∧
    (∀ s ∈ (⟨[⟨0, 0, ⟨0, 0, 0, 0, 0, 0, 0, 0, 1⟩, [0], [0], [0]⟩], []⟩ : Strokes).Compressions ++
        (⟨[⟨0, 0, ⟨0, 0, 0, 0, 0, 0, 0, 0, 1⟩, [0], [0], [0]⟩], []⟩ : Strokes).Rebounds,
      WFVelStroke s) ∧
    ((0 < travelTotalCount ⟨[⟨0, 0, ⟨0, 0, 0, 0, 0, 0, 0, 0, 1⟩, [0], [0], [0]⟩], []⟩ [0, 10] →
        (travelHistogramData ⟨[⟨0, 0, ⟨0, 0, 0, 0, 0, 0, 0, 0, 1⟩, [0], [0], [0]⟩], []⟩
          [0, 10] 10).timePerc.sum = 100) ∧
      (travelTotalCount ⟨[⟨0, 0, ⟨0, 0, 0, 0, 0, 0, 0, 0, 1⟩, [0], [0], [0]⟩], []⟩ [0, 10] = 0 →
        ∀ x ∈ (travelHistogramData ⟨[⟨0, 0, ⟨0, 0, 0, 0, 0, 0, 0, 0, 1⟩, [0], [0], [0]⟩], []⟩
          [0, 10] 10).timePerc, x = 0) ∧
      (0 < (velocityHistogramData ⟨[⟨0, 0, ⟨0, 0, 0, 0, 0, 0, 0, 0, 1⟩, [0], [0], [0]⟩], []⟩
          200 [0, 10] [-100, 100] [-10, 10]).totalCount →
        grandSum (velocityHistogramData ⟨[⟨0, 0, ⟨0, 0, 0, 0, 0, 0, 0, 0, 1⟩, [0], [0], [0]⟩], []⟩
          200 [0, 10] [-100, 100] [-10, 10]).hist = 100) ∧
      ((velocityHistogramData ⟨[⟨0, 0, ⟨0, 0, 0, 0, 0, 0, 0, 0, 1⟩, [0], [0], [0]⟩], []⟩
          200 [0, 10] [-100, 100] [-10, 10]).totalCount = 0 →
        ∀ r ∈ (velocityHistogramData ⟨[⟨0, 0, ⟨0, 0, 0, 0, 0, 0, 0, 0, 1⟩, [0], [0], [0]⟩], []⟩
          200 [0, 10] [-100, 100] [-10, 10]).hist, ∀ x ∈ r, x = 0)) :=
  ⟨by decide, by decide,
    histogram_percentages_sum ⟨[⟨0, 0, ⟨0, 0, 0, 0, 0, 0, 0, 0, 1⟩, [0], [0], [0]⟩], []⟩
      [0, 10] 10 200 [0, 10] [-100, 100] [-10, 10] (by decide) (by decide)⟩

end SST